import Mathlib

set_option maxRecDepth 4000

/-!
Verification of the Conquer turn/region simulation engine of the p1x3lz
arcade repository.  The definitions below are a shallow embedding of the
TypeScript sources:

* `ConquerScene.detectEnclosedRegion` / `ConquerScene.detectAndCaptureRegions`
  (games/conquer/ConquerScene.ts),
* `validateMove` / `makeMove` / `checkConquerVictory` / `advanceToNextTurn`
  (hooks/useGameLogic.ts),
* `ConquerScoreCalculator.calculateScore` (utils/ScoreCalculators.ts).

Numbers are modelled with `Int`/`Nat` (all quantities involved are small
integers), JavaScript `Map`/`Set` objects keyed by `"x,y"` strings are
modelled as association lists / lists with membership (the key encoding is
injective on integer coordinates), `Date` fields and purely visual or audio
side effects (sprites, sounds, event emission) are not modelled.  A cell
owner is represented by the owning player's id, which is the only part of
the stored player object the engine ever reads back.
-/

/-- Cell types of the grid model (types/core-types.ts, enum CellType). -/
inductive CellType where
  | empty
  | occupied
  | rock
  | blocked
  | special
deriving DecidableEq, Repr

/-- An integer grid coordinate (types/core-types.ts, interface Position). -/
structure Position where
  x : Int
  y : Int
deriving DecidableEq, Repr

/-- A grid cell: its type and (optionally) the id of the owning player. -/
structure Cell where
  type : CellType
  owner : Option String
deriving DecidableEq, Repr

/-- The grid: dimensions plus a row-major 2D array of cells
(types/core-types.ts, interface Grid). -/
structure Grid where
  width : Nat
  height : Nat
  cells : List (List Cell)
deriving DecidableEq, Repr

/-- A player; only the fields the engine logic reads are modelled. -/
structure Player where
  id : String
  name : String
  isLocal : Bool
deriving DecidableEq, Repr

/-- A captured region: its cell list and the id of the capturing player
(types/core-types.ts, interface Region; the generated id and capture date
are not modelled). -/
structure Region where
  cells : List Position
  owner : String
deriving DecidableEq, Repr

/-- Reading `grid.cells[pos.y]?.[pos.x]`: JavaScript array indexing yields
`undefined` for negative or out-of-range indices. -/
def Grid.cellAt (g : Grid) (p : Position) : Option Cell :=
  if p.y < 0 ∨ p.x < 0 then none
  else match g.cells[p.y.toNat]? with
    | none => none
    | some row => row[p.x.toNat]?

/-- The bounds test `x < 0 || x >= width || y < 0 || y >= height` used by
the flood fill and the boundary scan. -/
def Grid.outOfBounds (g : Grid) (p : Position) : Bool :=
  decide (p.x < 0) || decide (p.x ≥ (g.width : Int)) ||
  decide (p.y < 0) || decide (p.y ≥ (g.height : Int))

/-- A grid is well formed when its cell array really is `height` rows of
`width` cells each. -/
def Grid.WF (g : Grid) : Prop :=
  g.cells.length = g.height ∧ ∀ row ∈ g.cells, row.length = g.width

/-- The data-model invariant of core-types: a cell has an owner exactly
when it is occupied (here only the direction needed: owners imply
occupancy). -/
def Grid.OwnerWF (g : Grid) : Prop :=
  ∀ row ∈ g.cells, ∀ c ∈ row, c.owner.isSome → c.type = CellType.occupied

instance (g : Grid) : Decidable g.WF := by
  unfold Grid.WF
  infer_instance

instance (g : Grid) : Decidable g.OwnerWF := by
  unfold Grid.OwnerWF
  infer_instance

/-- The four cardinal neighbours, in the fixed source order
left, right, up, down (ConquerScene.getAdjacentPositions). -/
def getAdjacentPositions (p : Position) : List Position :=
  [⟨p.x - 1, p.y⟩, ⟨p.x + 1, p.y⟩, ⟨p.x, p.y - 1⟩, ⟨p.x, p.y + 1⟩]

/-- The flood-fill expansion test of `detectEnclosedRegion`:
`cell.type === EMPTY || (cell.owner && cell.owner.id !== player.id)`. -/
def isRegionCell (pid : String) (c : Cell) : Bool :=
  decide (c.type = CellType.empty) ||
  (match c.owner with
   | some o => decide (o ≠ pid)
   | none => false)

/-- Processing of a single neighbour inside the flood-fill loop: skip it
when already visited, out of bounds, missing, or not expansion-eligible;
otherwise enqueue it and mark it visited. -/
def pushStep (g : Grid) (pid : String)
    (acc : List Position × List Position) (neigh : Position) :
    List Position × List Position :=
  if neigh ∈ acc.2 then acc
  else if g.outOfBounds neigh then acc
  else match g.cellAt neigh with
    | none => acc
    | some c =>
      if isRegionCell pid c then (acc.1 ++ [neigh], neigh :: acc.2)
      else acc

/-- One pop of the flood-fill stack: examine the four neighbours of
`current` in order, enqueueing (and marking visited) those that are
in bounds, unvisited and expansion-eligible.  Returns the enqueued
positions in push order together with the extended visited set. -/
def floodStep (g : Grid) (pid : String) (current : Position)
    (visited : List Position) : List Position × List Position :=
  (getAdjacentPositions current).foldl (pushStep g pid) ([], visited)

/-- The flood-fill work loop of `detectEnclosedRegion`.  The source keeps
the work list in a JavaScript array popped from the back; the list here is
that array reversed, so the head is the element popped next.  The fuel
argument only bounds the iteration count; `floodFill` passes enough fuel
for the stack to drain completely. -/
def floodLoop (g : Grid) (pid : String) :
    Nat → List Position → List Position → List Position →
    List Position × List Position
  | 0, _, visited, region => (region, visited)
  | _ + 1, [], visited, region => (region, visited)
  | fuel + 1, current :: stack, visited, region =>
    let step := floodStep g pid current visited
    floodLoop g pid fuel (step.1.reverse ++ stack) step.2 (region ++ [current])

/-- The flood fill of `detectEnclosedRegion`: the contiguous empty/opponent
area reachable from `startPos`, in pop (DFS) order. -/
def floodFill (g : Grid) (pid : String) (startPos : Position) : List Position :=
  (floodLoop g pid (4 * (g.width * g.height + 1) + 1) [startPos] [startPos] []).1

/-- The hard edge veto of `detectEnclosedRegion`: an opponent-owned cell of
the region lying on the outer border of the grid. -/
def vetoCell (g : Grid) (pid : String) (p : Position) : Bool :=
  match g.cellAt p with
  | none => false
  | some c =>
    (match c.owner with
     | some o => decide (o ≠ pid)
     | none => false) &&
    (decide (p.x = 0) || decide (p.x = (g.width : Int) - 1) ||
     decide (p.y = 0) || decide (p.y = (g.height : Int) - 1))

/-- Processing of a single neighbour inside the boundary scan: an
out-of-bounds neighbour increments the neutral-edge counter, a missing cell
is skipped, a rock or own cell is a friendly boundary, a neighbour inside
the region is skipped, and anything else makes the region open (`none`,
which then absorbs). -/
def scanStep (g : Grid) (pid : String) (regionCells : List Position)
    (acc : Option Nat) (neigh : Position) : Option Nat :=
  match acc with
  | none => none
  | some cnt =>
    if g.outOfBounds neigh then some (cnt + 1)
    else match g.cellAt neigh with
      | none => some cnt
      | some c =>
        if c.type = CellType.rock ∨ c.owner = some pid then some cnt
        else if regionCells.any fun p =>
            decide (p.x = neigh.x) && decide (p.y = neigh.y) then some cnt
        else none

/-- The boundary scan of `detectEnclosedRegion` for one region cell,
threading the neutral-edge counter over its four neighbours. -/
def scanCellBoundary (g : Grid) (pid : String) (regionCells : List Position)
    (cellPos : Position) (acc : Option Nat) : Option Nat :=
  (getAdjacentPositions cellPos).foldl (scanStep g pid regionCells) acc

/-- The full boundary scan over all region cells, yielding the number of
neutral-edge occurrences or `none` when the region is open. -/
def scanBoundary (g : Grid) (pid : String) (regionCells : List Position) :
    Option Nat :=
  regionCells.foldl (fun acc p => scanCellBoundary g pid regionCells p acc)
    (some 0)

/-- ConquerScene.detectEnclosedRegion: flood fill from `startPos`, reject
on the hard edge veto or an open boundary, count neutral edges against the
`maxNeutralEdges` budget, and return the captured region on success. -/
def detectEnclosedRegion (g : Grid) (maxEdges : Nat) (player : Player)
    (startPos : Position) : Option Region :=
  match g.cellAt startPos with
  | none => none
  | some startCell =>
    if startCell.owner = some player.id ∨ startCell.type = CellType.rock then
      none
    else
      let regionCells := floodFill g player.id startPos
      if regionCells.any (vetoCell g player.id) then none
      else match scanBoundary g player.id regionCells with
        | none => none
        | some edgeCount =>
          if edgeCount > maxEdges then none
          else some ⟨regionCells, player.id⟩

/-- Writing one cell of the grid (`cell.type = ...; cell.owner = ...`);
out-of-range positions leave the grid unchanged, mirroring the
`if (cell)` guard of the source. -/
def Grid.setCell (g : Grid) (p : Position) (c : Cell) : Grid :=
  if p.y < 0 ∨ p.x < 0 then g
  else match g.cells[p.y.toNat]? with
    | none => g
    | some row =>
      { g with cells := g.cells.set p.y.toNat (row.set p.x.toNat c) }

/-- The grid mutation of `detectAndCaptureRegions`: every captured cell is
retyped occupied and owned by the capturing player. -/
def applyCaptures (g : Grid) (pid : String) (cells : List Position) : Grid :=
  cells.foldl (fun g' pos =>
    g'.setCell pos ⟨CellType.occupied, some pid⟩) g

/-- Processing of a single neighbour start inside
`detectAndCaptureRegions`: skip starts already captured earlier in the same
move, otherwise detect an enclosed region from there and collect it. -/
def captureStep (g : Grid) (maxEdges : Nat) (player : Player)
    (acc : List Region × List Position) (startPos : Position) :
    List Region × List Position :=
  if startPos ∈ acc.2 then acc
  else match detectEnclosedRegion g maxEdges player startPos with
    | some region =>
      if region.cells.length > 0 then
        (acc.1 ++ [region], acc.2 ++ region.cells)
      else acc
    | none => acc

/-- ConquerScene.detectAndCaptureRegions: scan the four neighbours of the
placed cell in order, skipping starts already captured earlier in the same
move, collect the captured regions and their cells, then apply all the
ownership changes to the grid at once. -/
def detectAndCaptureRegions (g : Grid) (maxEdges : Nat) (player : Player)
    (lastMove : Position) : List Region × List Position × Grid :=
  let scan := (getAdjacentPositions lastMove).foldl
    (captureStep g maxEdges player) ([], [])
  (scan.1, scan.2, applyCaptures g player.id scan.2)

/-- Game kinds (types/core-types.ts, enum GameType; only the kinds the
victory dispatcher distinguishes are needed). -/
inductive GameType where
  | conquer
  | chess
  | snake
deriving DecidableEq, Repr

/-- Game lifecycle states (types/core-types.ts, enum GameStatus). -/
inductive GameStatus where
  | pending
  | starting
  | running
  | paused
  | ending
  | ended
deriving DecidableEq, Repr

/-- Victory kinds (types/core-types.ts, enum VictoryType). -/
inductive VictoryType where
  | majority
  | elimination
  | objective
  | timeLimit
  | consensus
  | stalemate
deriving DecidableEq, Repr

/-- A recorded move; id and timestamp are not modelled. -/
structure Move where
  playerId : String
  position : Position
deriving DecidableEq, Repr

/-- The active turn (types/core-types.ts, interface Turn; start time is not
modelled). -/
structure Turn where
  turnNumber : Nat
  playerId : String
  moves : List Move
  timeLimit : Nat
  timeRemaining : Nat
deriving DecidableEq, Repr

/-- The victory-evaluation result (types/core-types.ts, WinCondition). -/
structure WinCondition where
  hasWinner : Bool
  winners : List Player
  type : VictoryType
  reason : String
deriving DecidableEq, Repr

/-- The game options consumed by the modelled engine code. -/
structure GameOptions where
  turnTimeLimit : Nat
  maxNeutralEdges : Nat
deriving DecidableEq, Repr

/-- The aggregate game state (types/core-types.ts, interface Game; only the
fields the modelled logic reads or writes). -/
structure Game where
  type : GameType
  grid : Grid
  players : List Player
  currentTurn : Option Turn
  options : GameOptions
  status : GameStatus
  winCondition : Option WinCondition
deriving DecidableEq, Repr

/-- Row-major enumeration of all in-range positions, matching the nested
`for (y) for (x)` scan loops of the source. -/
def allPositions (g : Grid) : List Position :=
  (List.range g.height).flatMap fun y =>
    (List.range g.width).map fun x => ⟨Int.ofNat x, Int.ofNat y⟩

/-- JavaScript `Map.get`, on the association-list model of a Map. -/
def mapGet (m : List (String × Nat)) (k : String) : Option Nat :=
  (m.find? fun e => decide (e.1 = k)).map Prod.snd

/-- JavaScript `Map.set`: update in place when the key is present,
otherwise append (preserving insertion order). -/
def mapSet (m : List (String × Nat)) (k : String) (v : Nat) :
    List (String × Nat) :=
  if m.any fun e => decide (e.1 = k) then
    m.map fun e => if e.1 = k then (k, v) else e
  else m ++ [(k, v)]

/-- The running counters of the cell-count scan at the top of
`checkConquerVictory`. -/
structure CellCounts where
  playerCounts : List (String × Nat)
  occupiedCells : Nat
  rockCells : Nat
  emptyCells : Nat
deriving DecidableEq, Repr

/-- One step of the cell-count scan: an owned cell feeds the per-player map
and the occupied counter, an ownerless rock the rock counter, an ownerless
empty cell the empty counter. -/
def countStep (counts : CellCounts) (oc : Option Cell) : CellCounts :=
  match oc with
  | none => counts
  | some cell =>
    match cell.owner with
    | some oid =>
      { counts with
        playerCounts :=
          mapSet counts.playerCounts oid
            ((mapGet counts.playerCounts oid).getD 0 + 1),
        occupiedCells := counts.occupiedCells + 1 }
    | none =>
      if cell.type = CellType.rock then
        { counts with rockCells := counts.rockCells + 1 }
      else if cell.type = CellType.empty then
        { counts with emptyCells := counts.emptyCells + 1 }
      else counts

/-- The cell-count scan over an arbitrary position list (the generalisation
on which the scan invariant is proved by induction). -/
def countScan (g : Grid) (l : List Position) : CellCounts :=
  l.foldl (fun acc p => countStep acc (g.cellAt p)) ⟨[], 0, 0, 0⟩

/-- The full cell-count scan of `checkConquerVictory`. -/
def countCells (g : Grid) : CellCounts :=
  countScan g (allPositions g)

/-- Reason string of the majority branch of `checkConquerVictory`. -/
def majorityReason (p : Player) : String :=
  p.name ++ " controls over 50% of the territory."

/-- Reason string of the impossibility branch of `checkConquerVictory`. -/
def impossibilityReason (p : Player) : String :=
  "No opponent can catch up, " ++ p.name ++ " has an clear lead."

/-- The majority loop of `checkConquerVictory`: the first map entry at or
above the threshold whose id names a known player wins. -/
def findMajorityWinner (players : List Player) (counts : List (String × Nat))
    (threshold : Nat) : Option Player :=
  counts.findSome? fun e =>
    if e.2 ≥ threshold then players.find? fun p => decide (p.id = e.1)
    else none

/-- The ranked score list of the impossibility branch: players paired with
their counts, stably sorted by descending count
(`sort((a, b) => b.count - a.count)`; ECMAScript sorts are stable, and
stable insertion sort is observationally the same sort). -/
def playerScores (players : List Player) (counts : List (String × Nat)) :
    List (Player × Nat) :=
  (players.map fun p => (p, (mapGet counts p.id).getD 0)).insertionSort
    fun a b => b.2 ≤ a.2

/-- The mathematical-impossibility early-termination check of
`checkConquerVictory`. -/
def checkImpossibility (players : List Player) (counts : CellCounts) :
    Option WinCondition :=
  if counts.emptyCells > 0 then
    match playerScores players counts.playerCounts with
    | [] => none
    | leader :: trailing =>
      if (trailing.any fun t => decide (t.2 + counts.emptyCells > leader.2))
            = false ∧ 0 < leader.2 then
        some ⟨true, [leader.1], VictoryType.majority,
          impossibilityReason leader.1⟩
      else none
  else none

/-- Reason string of the full-grid branch of `checkConquerVictory`. -/
def gridFullReason (winners : List Player) : String :=
  if winners.length > 1 then
    "Grid is full. Tie between "
      ++ String.intercalate ", " (winners.map Player.name) ++ "."
  else
    "Grid is full. "
      ++ (match winners.head? with | some w => w.name | none => "undefined")
      ++ " has the most territory."

/-- The full-grid branch of `checkConquerVictory`, including the
game-in-progress fallback. -/
def checkGridFull (players : List Player) (counts : CellCounts)
    (totalCells : Nat) : WinCondition :=
  if counts.occupiedCells + counts.rockCells ≥ totalCells then
    let maxCount := counts.playerCounts.foldl (fun m e => max m e.2) 0
    if maxCount = 0 then
      ⟨true, [], VictoryType.stalemate,
        "Grid is full, but no players own territory."⟩
    else
      let winners := players.filter fun p =>
        decide (mapGet counts.playerCounts p.id = some maxCount)
      ⟨true, winners, VictoryType.majority, gridFullReason winners⟩
  else ⟨false, [], VictoryType.majority, "Game in progress"⟩

/-- useGameLogic.checkConquerVictory: majority, then mathematical
impossibility, then the full-grid/stalemate check. -/
def checkConquerVictory (game : Game) : WinCondition :=
  let totalCells := game.grid.width * game.grid.height
  let counts := countCells game.grid
  let playableCells := totalCells - counts.rockCells
  let majorityThreshold := playableCells / 2 + 1
  match findMajorityWinner game.players counts.playerCounts majorityThreshold with
  | some winner =>
    ⟨true, [winner], VictoryType.majority, majorityReason winner⟩
  | none =>
    match checkImpossibility game.players counts with
    | some result => result
    | none => checkGridFull game.players counts totalCells

/-- useGameLogic.checkVictoryConditions: Conquer games use
`checkConquerVictory`; every other kind reports no winner. -/
def checkVictoryConditions (game : Game) : WinCondition :=
  if game.type = GameType.conquer then checkConquerVictory game
  else ⟨false, [], VictoryType.majority, "Game in progress"⟩

/-- useGameLogic.advanceToNextTurn: install a fresh turn for the next
player in join order, incrementing the turn number only on wrap-around to
the first player.  A JavaScript `findIndex` miss yields `-1`, making the
next index `0`. -/
def advanceToNextTurn (game : Game) : Game :=
  match game.currentTurn with
  | none => game
  | some turn =>
    let nextPlayerIndex :=
      match game.players.findIdx? fun p => decide (p.id = turn.playerId) with
      | some i => (i + 1) % game.players.length
      | none => 0
    match game.players[nextPlayerIndex]? with
    | none => game
    | some nextPlayer =>
      let newTurnNumber :=
        if nextPlayerIndex = 0 then turn.turnNumber + 1 else turn.turnNumber
      let newTurn : Turn :=
        { turnNumber := newTurnNumber
          playerId := nextPlayer.id
          moves := []
          timeLimit := game.options.turnTimeLimit
          timeRemaining := game.options.turnTimeLimit }
      { game with currentTurn := some newTurn }

/-- The hook's derived `localPlayers` value. -/
def localPlayers (game : Game) : List Player :=
  game.players.filter Player.isLocal

/-- The hook's derived `currentPlayer` value. -/
def currentPlayerOf (game : Game) : Option Player :=
  match game.currentTurn with
  | some t => game.players.find? fun p => decide (p.id = t.playerId)
  | none => none

/-- The hook's derived `isMyTurn` value. -/
def isMyTurnOf (game : Game) : Bool :=
  match currentPlayerOf game with
  | some cp => (localPlayers game).any fun p => decide (p.id = cp.id)
  | none => false

/-- Tagged validation outcome (types/core-types.ts, ValidationResult). -/
structure ValidationResult where
  valid : Bool
  error : Option String
deriving DecidableEq, Repr

/-- useGameLogic.validateMove: bounds, then turn ownership, then cell
emptiness, then membership in the precomputed valid-move list. -/
def validateMove (game : Game) (validMoves : List Position)
    (position : Position) : ValidationResult :=
  if position.x < 0 ∨ position.x ≥ (game.grid.width : Int) ∨
      position.y < 0 ∨ position.y ≥ (game.grid.height : Int) then
    ⟨false, some "Position out of bounds"⟩
  else if isMyTurnOf game = false then
    ⟨false, some "Not your turn"⟩
  else
    match game.grid.cellAt position with
    | none => ⟨false, some "Cell is not empty"⟩
    | some cell =>
      if cell.type ≠ CellType.empty then ⟨false, some "Cell is not empty"⟩
      else if (validMoves.any fun pos =>
          decide (pos.x = position.x) && decide (pos.y = position.y)) = false then
        ⟨false, some "Invalid move"⟩
      else ⟨true, none⟩

/-- useGameLogic.makeMove: validate, then place the cell, record the move,
re-evaluate victory and either end the game or advance the turn.  The
updated game state is returned alongside the validation result; on any
validation failure the input state is returned untouched. -/
def makeMove (game : Game) (validMoves : List Position)
    (position : Position) : ValidationResult × Game :=
  let validation := validateMove game validMoves position
  if validation.valid = false then (validation, game)
  else
    match currentPlayerOf game with
    | none => (⟨false, some "No current player"⟩, game)
    | some player =>
      let move : Move := ⟨player.id, position⟩
      let game1 :=
        { game with
          grid := game.grid.setCell position ⟨CellType.occupied, some player.id⟩
          currentTurn :=
            match game.currentTurn with
            | some t => some { t with moves := t.moves ++ [move] }
            | none => none }
      let victoryResult := checkVictoryConditions game1
      if victoryResult.hasWinner then
        (⟨true, none⟩,
          { game1 with
            winCondition := some victoryResult
            status := GameStatus.ended })
      else (⟨true, none⟩, advanceToNextTurn game1)

/-- Display-ready score (types/core-types.ts, PlayerScore; the colour field
is not modelled). -/
structure PlayerScore where
  playerId : String
  displayText : String
  rawScore : List Int
deriving DecidableEq, Repr

/-- JavaScript `Math.round` on the exact rational value: round half away
from zero for the nonnegative values arising here. -/
def jsRound (q : ℚ) : ℤ := ⌊q + 1 / 2⌋

/-- One cell of the counting loop of
`ConquerScoreCalculator.calculateScore`: a non-rock cell is playable, and
counts as owned when the player owns it. -/
def scoreStep (g : Grid) (pid : String) (acc : Nat × Nat) (p : Position) :
    Nat × Nat :=
  match g.cellAt p with
  | none => acc
  | some cell =>
    if cell.type ≠ CellType.rock then
      (if cell.owner = some pid then acc.1 + 1 else acc.1, acc.2 + 1)
    else acc

/-- The counting loop of `ConquerScoreCalculator.calculateScore`:
tiles owned by the player and total playable (non-rock) tiles. -/
def scoreCounts (g : Grid) (pid : String) : Nat × Nat :=
  (allPositions g).foldl (scoreStep g pid) (0, 0)

/-- ConquerScoreCalculator.calculateScore: tiles owned, percentage of the
playable grid (0 when there are no playable cells), and the display text. -/
def calculateScore (g : Grid) (player : Player) : PlayerScore :=
  let counts := scoreCounts g player.id
  let tilesOwned := counts.1
  let totalPlayableCells := counts.2
  let percentage : ℤ :=
    if totalPlayableCells > 0 then
      jsRound ((tilesOwned : ℚ) / (totalPlayableCells : ℚ) * 100)
    else 0
  ⟨player.id,
    player.name ++ ": " ++ toString tilesOwned ++ "T "
      ++ toString percentage ++ "%",
    [(tilesOwned : ℤ), percentage]⟩

/-! Specification-side notions.  The definitions below are stated
independently of the loop structure of the source functions, so that the
claim theorems relate the embedded code to them rather than to themselves. -/

/-- A position lies inside the grid rectangle. -/
def Grid.inBounds (g : Grid) (p : Position) : Prop :=
  0 ≤ p.x ∧ p.x < (g.width : Int) ∧ 0 ≤ p.y ∧ p.y < (g.height : Int)

instance (g : Grid) (p : Position) : Decidable (g.inBounds p) := by
  unfold Grid.inBounds; infer_instance

/-- A position lies on the outer border of the grid. -/
def Grid.onBorder (g : Grid) (p : Position) : Prop :=
  p.x = 0 ∨ p.x = (g.width : Int) - 1 ∨ p.y = 0 ∨ p.y = (g.height : Int) - 1

instance (g : Grid) (p : Position) : Decidable (g.onBorder p) := by
  unfold Grid.onBorder; infer_instance

/-- A position that carries a flood-fill-expansion-eligible cell: an empty
cell or one owned by a player other than the mover. -/
def eligible (g : Grid) (pid : String) (p : Position) : Prop :=
  ∃ c, g.cellAt p = some c ∧ isRegionCell pid c = true

/-- Reachability from a flood-fill start: the start itself, plus closure
under stepping to in-bounds expansion-eligible neighbours. -/
inductive Reaches (g : Grid) (pid : String) (s : Position) : Position → Prop
  | refl : Reaches g pid s s
  | step {p q : Position} : Reaches g pid s p → q ∈ getAdjacentPositions p →
      g.outOfBounds q = false → eligible g pid q → Reaches g pid s q

/-- The number of edge-boundary occurrences of a cell list: one per
(cell, direction) pair whose neighbour lies outside the grid. -/
def edgeBoundaryCount (g : Grid) (cells : List Position) : Nat :=
  (cells.map fun p => (getAdjacentPositions p).countP fun n =>
    g.outOfBounds n).sum

/-- The owner (if any) recorded at a position. -/
def ownerAt (g : Grid) (p : Position) : Option String :=
  (g.cellAt p).bind Cell.owner

/-- The cell at this position is owned by the given id. -/
def pOwn (g : Grid) (id : String) (p : Position) : Bool :=
  decide ((g.cellAt p).bind Cell.owner = some id)

/-- The cell at this position is owned by somebody. -/
def pOcc (g : Grid) (p : Position) : Bool :=
  ((g.cellAt p).bind Cell.owner).isSome

/-- The cell at this position is an ownerless rock. -/
def pRock (g : Grid) (p : Position) : Bool :=
  match g.cellAt p with
  | some c => decide (c.owner = none) && decide (c.type = CellType.rock)
  | none => false

/-- The cell at this position is an ownerless empty cell. -/
def pEmpty (g : Grid) (p : Position) : Bool :=
  match g.cellAt p with
  | some c => decide (c.owner = none) && decide (c.type = CellType.empty)
  | none => false

/-- The number of cells owned by the given id, counting every owned cell
whatever its type, exactly as the victory scan does. -/
def ownedCount (g : Grid) (pid : String) : Nat :=
  (allPositions g).countP (pOwn g pid)

/-- The number of ownerless rock cells, as counted by the victory scan. -/
def rockCount (g : Grid) : Nat :=
  (allPositions g).countP (pRock g)

/-- The number of ownerless empty cells, as counted by the victory scan. -/
def emptyCount (g : Grid) : Nat :=
  (allPositions g).countP (pEmpty g)

/-- The majority threshold of the victory evaluator:
`floor(playableCells / 2) + 1` with `playableCells = total - rocks`. -/
def majorityThreshold (g : Grid) : Nat :=
  (g.width * g.height - rockCount g) / 2 + 1

/-- The number of playable (non-rock) cells, as counted by the score
calculator. -/
def playableCount (g : Grid) : Nat :=
  (allPositions g).countP fun p =>
    match g.cellAt p with
    | some c => decide (c.type ≠ CellType.rock)
    | none => false

/-- The number of playable cells owned by the given id, as counted by the
score calculator. -/
def ownedPlayableCount (g : Grid) (pid : String) : Nat :=
  (allPositions g).countP fun p =>
    match g.cellAt p with
    | some c => decide (c.type ≠ CellType.rock) && decide (c.owner = some pid)
    | none => false

/-- The per-neighbour condition under which the boundary scan cannot fail:
every in-bounds neighbour is missing, a friendly boundary, or inside the
region. -/
def scanOK (g : Grid) (pid : String) (R : List Position) (n : Position) :
    Prop :=
  g.outOfBounds n = false →
    g.cellAt n = none ∨
    (∃ c, g.cellAt n = some c ∧
      (c.type = CellType.rock ∨ c.owner = some pid)) ∨
    n ∈ R

/-- The invariant of the flood-fill work loop: the visited set is exactly
the region found so far plus the pending stack, everything visited is the
start or an in-bounds expansion-eligible cell reachable from the start,
and every already-popped cell has all its eligible neighbours visited. -/
def LoopInv (g : Grid) (pid : String) (s : Position)
    (stack visited region : List Position) : Prop :=
  visited.Nodup ∧
  (∀ p, p ∈ visited ↔ p ∈ region ∨ p ∈ stack) ∧
  (region ++ stack).Nodup ∧
  (∀ p ∈ visited, p = s ∨ (g.outOfBounds p = false ∧ eligible g pid p)) ∧
  (∀ p ∈ visited, Reaches g pid s p) ∧
  (∀ p ∈ region, ∀ n ∈ getAdjacentPositions p,
    g.outOfBounds n = false → eligible g pid n → n ∈ visited)

/-- What the flood fill guarantees about its output region relative to an
initial visited set. -/
def FloodOut (g : Grid) (pid : String) (s : Position)
    (visited res : List Position) : Prop :=
  res.Nodup ∧
  (∀ p ∈ visited, p ∈ res) ∧
  (∀ p ∈ res, p = s ∨ (g.outOfBounds p = false ∧ eligible g pid p)) ∧
  (∀ p ∈ res, Reaches g pid s p) ∧
  (∀ p ∈ res, ∀ n ∈ getAdjacentPositions p, g.outOfBounds n = false →
    eligible g pid n → n ∈ res)

/-! Concrete states used by the witnesses and counterexamples. -/

/-- First test player. -/
def playerA : Player := ⟨"A", "Alice", true⟩

/-- Second test player. -/
def playerB : Player := ⟨"B", "Bob", false⟩

/-- Third test player. -/
def playerC : Player := ⟨"C", "Carol", false⟩

/-- A cell owned by player A. -/
def cellA : Cell := ⟨CellType.occupied, some "A"⟩

/-- A cell owned by player B. -/
def cellB : Cell := ⟨CellType.occupied, some "B"⟩

/-- An empty cell. -/
def cellE : Cell := ⟨CellType.empty, none⟩

/-- A rock cell. -/
def cellR : Cell := ⟨CellType.rock, none⟩

/-- A blocked cell. -/
def cellX : Cell := ⟨CellType.blocked, none⟩

/-- The 4x4 border-completion scenario grid: player A owns all 12 border
cells, the 4 centre cells are empty, no rocks. -/
def gridC3 : Grid :=
  ⟨4, 4,
    [[cellA, cellA, cellA, cellA],
     [cellA, cellE, cellE, cellA],
     [cellA, cellE, cellE, cellA],
     [cellA, cellA, cellA, cellA]]⟩

/-- A cell owned by player C. -/
def cellC : Cell := ⟨CellType.occupied, some "C"⟩

/-- A running Conquer game over the given grid and players. -/
def gameOf (g : Grid) (players : List Player) : Game :=
  ⟨GameType.conquer, g, players, none, ⟨60, 6⟩, GameStatus.running, none⟩

/-- A full row of 8 cells owned by A. -/
def rowA8 : List Cell := List.replicate 8 cellA

/-- A full row of 8 empty cells. -/
def rowE8 : List Cell := List.replicate 8 cellE

/-- An 8x8 rockless board on which player A owns 33 cells. -/
def gridA33 : Grid :=
  ⟨8, 8, [rowA8, rowA8, rowA8, rowA8,
    cellA :: List.replicate 7 cellE, rowE8, rowE8, rowE8]⟩

/-- An 8x8 rockless board on which player A owns 32 cells. -/
def gridA32 : Grid :=
  ⟨8, 8, [rowA8, rowA8, rowA8, rowA8, rowE8, rowE8, rowE8, rowE8]⟩

/-- A 9x9 rockless board: A owns 40 cells, B 30, C 1, and 10 are empty. -/
def gridC6 : Grid :=
  ⟨9, 9,
    [List.replicate 9 cellA, List.replicate 9 cellA, List.replicate 9 cellA,
     List.replicate 9 cellA,
     List.replicate 4 cellA ++ List.replicate 5 cellB,
     List.replicate 9 cellB, List.replicate 9 cellB,
     List.replicate 7 cellB ++ [cellC, cellE],
     List.replicate 9 cellE]⟩

/-- An 8x10 board with one rock: A owns 40 cells, B 29, 10 empty. -/
def gridC6b : Grid :=
  ⟨8, 10,
    [rowA8, rowA8, rowA8, rowA8, rowA8,
     List.replicate 8 cellB, List.replicate 8 cellB, List.replicate 8 cellB,
     List.replicate 5 cellB ++ List.replicate 3 cellE,
     List.replicate 7 cellE ++ [cellR]]⟩

/-- A 2x2 board consisting only of rocks. -/
def gridRocks : Grid := ⟨2, 2, [[cellR, cellR], [cellR, cellR]]⟩

/-- A running 3-player game in which A holds turn 1. -/
def gameT : Game :=
  { gameOf ⟨1, 1, [[cellE]]⟩ [playerA, playerB, playerC] with
    currentTurn := some ⟨1, "A", [], 60, 60⟩ }

/-- The same 3-player game with the last player C holding turn 1. -/
def gameT3 : Game :=
  { gameOf ⟨1, 1, [[cellE]]⟩ [playerA, playerB, playerC] with
    currentTurn := some ⟨1, "C", [], 60, 60⟩ }

/-! Helper lemmas. -/

theorem Position.ext_xy {p q : Position} (hx : p.x = q.x) (hy : p.y = q.y) :
    p = q := by
  cases p; cases q; simp_all

theorem memCheck_iff (cells : List Position) (n : Position) :
    (cells.any fun p => decide (p.x = n.x) && decide (p.y = n.y)) = true ↔
      n ∈ cells := by
  simp only [List.any_eq_true, Bool.and_eq_true, decide_eq_true_eq]
  constructor
  · rintro ⟨p, hp, hx, hy⟩
    exact (Position.ext_xy hx hy) ▸ hp
  · intro hn
    exact ⟨n, hn, rfl, rfl⟩

theorem scanStep_none (g : Grid) (pid : String) (R : List Position)
    (n : Position) : scanStep g pid R none n = none := rfl

theorem scanFold_none (g : Grid) (pid : String) (R : List Position)
    (l : List Position) : l.foldl (scanStep g pid R) none = none := by
  induction l with
  | nil => rfl
  | cons n l ih => simpa [scanStep] using ih

theorem scanFold_eq (g : Grid) (pid : String) (R : List Position)
    (l : List Position) (cnt : Nat) (H : ∀ n ∈ l, scanOK g pid R n) :
    l.foldl (scanStep g pid R) (some cnt) =
      some (cnt + l.countP fun n => g.outOfBounds n) := by
  induction l generalizing cnt with
  | nil => simp
  | cons n l ih =>
    have hn := H n (by simp)
    have hrest : ∀ x ∈ l, scanOK g pid R x := fun x hx => H x (by simp [hx])
    by_cases hoob : g.outOfBounds n = true
    · rw [List.foldl_cons]
      have hstep : scanStep g pid R (some cnt) n = some (cnt + 1) := by
        simp [scanStep, hoob]
      rw [hstep, ih (cnt + 1) hrest, List.countP_cons]
      simp [hoob, Nat.add_assoc, Nat.add_comm 1]
    · have hoob' : g.outOfBounds n = false := by
        cases h : g.outOfBounds n
        · rfl
        · exact absurd h hoob
      have hstep : scanStep g pid R (some cnt) n = some cnt := by
        rcases hn hoob' with hnone | ⟨c, hc, hfriendly⟩ | hmem
        · simp [scanStep, hoob', hnone]
        · simp [scanStep, hoob', hc, hfriendly]
        · simp only [scanStep, hoob', Bool.false_eq_true, if_false]
          cases hc : g.cellAt n with
          | none => rfl
          | some c =>
            by_cases hfr : c.type = CellType.rock ∨ c.owner = some pid
            · simp [hfr]
            · simp [hfr, (memCheck_iff R n).2 hmem]
      rw [List.foldl_cons, hstep, ih cnt hrest, List.countP_cons]
      simp [hoob']

theorem scanBoundary_eq (g : Grid) (pid : String) (R : List Position)
    (H : ∀ p ∈ R, ∀ n ∈ getAdjacentPositions p, scanOK g pid R n) :
    scanBoundary g pid R = some (edgeBoundaryCount g R) := by
  unfold scanBoundary edgeBoundaryCount
  have main : ∀ (l : List Position) (cnt : Nat),
      (∀ p ∈ l, ∀ n ∈ getAdjacentPositions p, scanOK g pid R n) →
      l.foldl (fun acc p => scanCellBoundary g pid R p acc) (some cnt) =
        some (cnt + (l.map fun p => (getAdjacentPositions p).countP fun n =>
          g.outOfBounds n).sum) := by
    intro l
    induction l with
    | nil => intro cnt _; simp
    | cons p l ih =>
      intro cnt H'
      rw [List.foldl_cons]
      have hcell : scanCellBoundary g pid R p (some cnt) =
          some (cnt + (getAdjacentPositions p).countP fun n =>
            g.outOfBounds n) := by
        unfold scanCellBoundary
        exact scanFold_eq g pid R _ cnt (H' p (by simp))
      rw [hcell, ih _ fun q hq => H' q (by simp [hq])]
      simp [Nat.add_assoc]
  simpa using main R 0 H

theorem detect_unfold (g : Grid) (m : Nat) (player : Player)
    (startPos : Position) (c0 : Cell) (h0 : g.cellAt startPos = some c0)
    (hfilter : ¬ (c0.owner = some player.id ∨ c0.type = CellType.rock)) :
    detectEnclosedRegion g m player startPos =
      (if (floodFill g player.id startPos).any (vetoCell g player.id) then
        none
      else
        match scanBoundary g player.id (floodFill g player.id startPos) with
        | none => none
        | some edgeCount =>
          if edgeCount > m then none
          else some ⟨floodFill g player.id startPos, player.id⟩) := by
  unfold detectEnclosedRegion
  rw [h0]
  simp [hfilter]

theorem vetoCell_false_of_not_border (g : Grid) (pid : String) (p : Position)
    (H : ∀ c, g.cellAt p = some c → ∀ o, c.owner = some o → o ≠ pid →
      ¬ g.onBorder p) :
    vetoCell g pid p = false := by
  unfold vetoCell
  cases hc : g.cellAt p with
  | none => rfl
  | some c =>
    cases ho : c.owner with
    | none => simp [ho]
    | some o =>
      by_cases heq : o = pid
      · simp [ho, heq]
      · have hnb := H c hc o ho heq
        unfold Grid.onBorder at hnb
        push_neg at hnb
        simp [ho, hnb.1, hnb.2.1, hnb.2.2.1, hnb.2.2.2]

/-! ### Claim C1: the neutral-edge budget boundary -/

/-- C1: for every grid, mover and configured budget, a flood-filled region
meeting every other enclosure condition (no opponent cell of the region on
the border, every in-bounds boundary neighbour a rock or the mover's own
cell) is captured when its edge-boundary occurrence count equals
`maxNeutralEdges` and rejected when it exceeds it by one. -/
theorem C1_edge_budget (g : Grid) (m : Nat) (player : Player)
    (startPos : Position) (c0 : Cell) (h0 : g.cellAt startPos = some c0)
    (hfilter : ¬ (c0.owner = some player.id ∨ c0.type = CellType.rock))
    (hveto : ∀ p ∈ floodFill g player.id startPos, ∀ c,
      g.cellAt p = some c → ∀ o, c.owner = some o → o ≠ player.id →
      ¬ g.onBorder p)
    (hclosed : ∀ p ∈ floodFill g player.id startPos,
      ∀ n ∈ getAdjacentPositions p, g.outOfBounds n = false →
      n ∉ floodFill g player.id startPos →
      g.cellAt n = none ∨ ∃ c, g.cellAt n = some c ∧
        (c.type = CellType.rock ∨ c.owner = some player.id)) :
    (edgeBoundaryCount g (floodFill g player.id startPos) = m →
      detectEnclosedRegion g m player startPos =
        some ⟨floodFill g player.id startPos, player.id⟩) ∧
    (edgeBoundaryCount g (floodFill g player.id startPos) = m + 1 →
      detectEnclosedRegion g m player startPos = none) := by
  have hscan : scanBoundary g player.id (floodFill g player.id startPos) =
      some (edgeBoundaryCount g (floodFill g player.id startPos)) := by
    apply scanBoundary_eq
    intro p hp n hn hoob
    by_cases hmem : n ∈ floodFill g player.id startPos
    · exact Or.inr (Or.inr hmem)
    · rcases hclosed p hp n hn hoob hmem with hnone | hsome
      · exact Or.inl hnone
      · exact Or.inr (Or.inl hsome)
  have hany : (floodFill g player.id startPos).any
      (vetoCell g player.id) = false := by
    rw [List.any_eq_false]
    intro p hp
    simp only [Bool.not_eq_true]
    exact vetoCell_false_of_not_border g player.id p (hveto p hp)
  rw [detect_unfold g m player startPos c0 h0 hfilter]
  constructor
  · intro hcount
    rw [hany, hscan, hcount]
    simp
  · intro hcount
    rw [hany, hscan, hcount]
    simp

/-- C1 witness: a 1x1 grid holding a single empty cell; its region has
exactly 4 edge-boundary occurrences, so it is captured with a budget of 4
and rejected with a budget of 3. -/
theorem C1_edge_budget_witness :
    detectEnclosedRegion ⟨1, 1, [[cellE]]⟩ 4 playerA ⟨0, 0⟩ =
      some ⟨[⟨0, 0⟩], "A"⟩ ∧
    detectEnclosedRegion ⟨1, 1, [[cellE]]⟩ 3 playerA ⟨0, 0⟩ = none := by
  constructor
  · exact (C1_edge_budget ⟨1, 1, [[cellE]]⟩ 4 playerA ⟨0, 0⟩ cellE
      (by decide) (by decide) (by decide) (by decide)).1 (by decide)
  · exact (C1_edge_budget ⟨1, 1, [[cellE]]⟩ 3 playerA ⟨0, 0⟩ cellE
      (by decide) (by decide) (by decide) (by decide)).2 (by decide)

/-! ### Claim C2: the hard edge veto -/

/-- C2: whenever the flood-filled region contains a cell owned by a player
other than the mover that lies on the outer border of the grid, region
detection yields no region at all, for every budget value. -/
theorem C2_edge_veto (g : Grid) (m : Nat) (player : Player)
    (startPos q : Position) (hq : q ∈ floodFill g player.id startPos)
    (c : Cell) (hc : g.cellAt q = some c) (o : String)
    (ho : c.owner = some o) (hne : o ≠ player.id) (hb : g.onBorder q) :
    detectEnclosedRegion g m player startPos = none := by
  unfold detectEnclosedRegion
  cases h0 : g.cellAt startPos with
  | none => rfl
  | some c0 =>
    by_cases hfilter : c0.owner = some player.id ∨ c0.type = CellType.rock
    · simp [hfilter]
    · have hany : (floodFill g player.id startPos).any
          (vetoCell g player.id) = true := by
        rw [List.any_eq_true]
        refine ⟨q, hq, ?_⟩
        unfold vetoCell
        rw [hc]
        rcases hb with h | h | h | h <;> simp [ho, h, hne]
      simp [hfilter, hany]

/-- C2 witness: a 2x2 grid with an opponent cell at the origin; the region
containing it is rejected. -/
theorem C2_edge_veto_witness :
    detectEnclosedRegion ⟨2, 2, [[cellB, cellE], [cellE, cellE]]⟩ 6 playerA
      ⟨0, 0⟩ = none :=
  C2_edge_veto ⟨2, 2, [[cellB, cellE], [cellE, cellE]]⟩ 6 playerA ⟨0, 0⟩
    ⟨0, 0⟩ (by decide) cellB (by decide) "B" (by decide) (by decide)
    (by decide)

/-! ### Claim C3: the 4x4 border-completion scenario -/

/-- C3 counterexample: on the 4x4 board with player A owning the whole
border and `maxNeutralEdges = 0`, region detection after the
border-completing placement at (1,0) does NOT capture nothing — it
captures the 4 centre cells, because the enclosed centre region has no
edge-boundary occurrence at all, so the budget of 0 is never exceeded. -/
theorem C3_counterexample :
    (detectAndCaptureRegions gridC3 0 playerA ⟨1, 0⟩).2.1 ≠ [] ∧
    (detectAndCaptureRegions gridC3 0 playerA ⟨1, 0⟩).2.1 =
      [⟨1, 1⟩, ⟨1, 2⟩, ⟨2, 2⟩, ⟨2, 1⟩] := by
  decide

/-- C3 amended: on the 4x4 rockless board where player A owns all 12
border cells, region detection after the border-completing placement at
(1,0) captures the 4 centre cells for A under `maxNeutralEdges = 0` and
`maxNeutralEdges = 4` alike: the centre region has zero edge-boundary
occurrences, so the budget value is irrelevant to this scenario, and the
captured cells become occupied and owned by A. -/
theorem C3_amended :
    (detectAndCaptureRegions gridC3 0 playerA ⟨1, 0⟩).2.1 =
      [⟨1, 1⟩, ⟨1, 2⟩, ⟨2, 2⟩, ⟨2, 1⟩] ∧
    (detectAndCaptureRegions gridC3 4 playerA ⟨1, 0⟩).2.1 =
      [⟨1, 1⟩, ⟨1, 2⟩, ⟨2, 2⟩, ⟨2, 1⟩] ∧
    edgeBoundaryCount gridC3 [⟨1, 1⟩, ⟨1, 2⟩, ⟨2, 2⟩, ⟨2, 1⟩] = 0 ∧
    (detectAndCaptureRegions gridC3 0 playerA ⟨1, 0⟩).2.2.cellAt ⟨1, 1⟩ =
      some ⟨CellType.occupied, some "A"⟩ ∧
    (detectAndCaptureRegions gridC3 0 playerA ⟨1, 0⟩).2.2.cellAt ⟨1, 2⟩ =
      some ⟨CellType.occupied, some "A"⟩ ∧
    (detectAndCaptureRegions gridC3 0 playerA ⟨1, 0⟩).2.2.cellAt ⟨2, 1⟩ =
      some ⟨CellType.occupied, some "A"⟩ ∧
    (detectAndCaptureRegions gridC3 0 playerA ⟨1, 0⟩).2.2.cellAt ⟨2, 2⟩ =
      some ⟨CellType.occupied, some "A"⟩ := by
  decide

/-! ### Claim C7: the zero-owner full-grid stalemate -/

/-- C7 counterexample: on a grid made entirely of rocks (no empty cells,
every player at zero tiles) the evaluator returns `hasWinner = true` with
an empty winners list, not `hasWinner = false` as the claim states. -/
theorem C7_counterexample :
    (checkConquerVictory (gameOf gridRocks [playerA, playerB])).hasWinner
        = true ∧
    (checkConquerVictory (gameOf gridRocks [playerA, playerB])).winners
        = [] := by
  decide

theorem countCells_all_rocks (g : Grid) (l : List Position)
    (acc : CellCounts) (H : ∀ p ∈ l, g.cellAt p = some cellR) :
    l.foldl (fun acc p => countStep acc (g.cellAt p)) acc =
      { acc with rockCells := acc.rockCells + l.length } := by
  induction l generalizing acc with
  | nil => simp
  | cons p l ih =>
    rw [List.foldl_cons, H p (by simp)]
    have hstep : countStep acc (some cellR) =
        { acc with rockCells := acc.rockCells + 1 } := by
      simp [countStep, cellR]
    rw [hstep, ih _ fun q hq => H q (by simp [hq])]
    simp [Nat.add_assoc, Nat.add_comm 1]

theorem length_allPositions (g : Grid) :
    (allPositions g).length = g.height * g.width := by
  unfold allPositions
  rw [List.length_flatMap]
  simp only [Function.comp_def]
  have h1 : ((List.range g.height).map fun y => ((List.range g.width).map
      fun x => (⟨Int.ofNat x, Int.ofNat y⟩ : Position)).length) =
      (List.range g.height).map fun _ => g.width := by
    apply List.map_congr_left
    intro y _
    simp
  rw [h1, List.map_const', List.sum_replicate, smul_eq_mul]
  simp

/-- C7 amended: when the grid consists entirely of ownerless rocks (so no
empty cell remains and every player owns zero tiles) the victory evaluator
returns a stalemate result whose winners list is empty but whose
`hasWinner` flag is `true` (the game ends with nobody winning), rather
than the `hasWinner = false` no-winner result the claim describes. -/
theorem C7_amended (game : Game)
    (H : ∀ p ∈ allPositions game.grid, game.grid.cellAt p = some cellR) :
    checkConquerVictory game =
      ⟨true, [], VictoryType.stalemate,
        "Grid is full, but no players own territory."⟩ := by
  have hcounts : countCells game.grid =
      ⟨[], 0, (allPositions game.grid).length, 0⟩ := by
    unfold countCells countScan
    rw [countCells_all_rocks game.grid _ _ H]
    simp
  unfold checkConquerVictory
  rw [hcounts]
  have himp : checkImpossibility game.players
      ⟨[], 0, (allPositions game.grid).length, 0⟩ = none := by
    simp [checkImpossibility]
  simp only [himp, findMajorityWinner, List.findSome?_nil]
  unfold checkGridFull
  rw [length_allPositions]
  simp [Nat.mul_comm]

/-- C7 amended witness: the all-rock 2x2 board. -/
theorem C7_amended_witness :
    checkConquerVictory (gameOf gridRocks [playerA, playerB]) =
      ⟨true, [], VictoryType.stalemate,
        "Grid is full, but no players own territory."⟩ :=
  C7_amended (gameOf gridRocks [playerA, playerB]) (by decide)

/-! ### Claim C9: validation order and failure purity -/

/-- C9: move validation checks bounds first, then turn ownership, then
cell emptiness, returning the tagged reason of the first failing check;
and whenever validation fails, `makeMove` returns that failure together
with the entirely unchanged game state. -/
theorem C9_validation (game : Game) (validMoves : List Position)
    (pos : Position) :
    (¬ game.grid.inBounds pos →
      validateMove game validMoves pos =
        ⟨false, some "Position out of bounds"⟩) ∧
    (game.grid.inBounds pos → isMyTurnOf game = false →
      validateMove game validMoves pos = ⟨false, some "Not your turn"⟩) ∧
    (game.grid.inBounds pos → isMyTurnOf game = true →
      (∀ c, game.grid.cellAt pos = some c → c.type ≠ CellType.empty) →
      validateMove game validMoves pos = ⟨false, some "Cell is not empty"⟩) ∧
    ((validateMove game validMoves pos).valid = false →
      makeMove game validMoves pos =
        (validateMove game validMoves pos, game)) := by
  have hbnd : (pos.x < 0 ∨ pos.x ≥ (game.grid.width : Int) ∨
      pos.y < 0 ∨ pos.y ≥ (game.grid.height : Int)) ↔
      ¬ game.grid.inBounds pos := by
    unfold Grid.inBounds
    constructor
    · intro h hin
      omega
    · intro h
      by_contra hc
      push_neg at hc
      exact h ⟨by omega, by omega, by omega, by omega⟩
  refine ⟨?_, ?_, ?_, ?_⟩
  · intro hout
    unfold validateMove
    rw [if_pos (hbnd.2 hout)]
  · intro hin hturn
    unfold validateMove
    rw [if_neg (fun h => (hbnd.1 h) hin), if_pos (by rw [hturn])]
  · intro hin hturn hcell
    unfold validateMove
    rw [if_neg (fun h => (hbnd.1 h) hin), if_neg (by rw [hturn]; simp)]
    cases hc : game.grid.cellAt pos with
    | none => rfl
    | some c =>
      have hcc := hcell c hc
      simp [hcc]
  · intro hfail
    unfold makeMove
    rw [if_pos hfail]

/-- C9 witness: an out-of-bounds request on a concrete game fails with the
bounds reason and leaves the state unchanged. -/
theorem C9_validation_witness :
    validateMove gameT [] ⟨-1, 0⟩ =
      ⟨false, some "Position out of bounds"⟩ ∧
    makeMove gameT [] ⟨-1, 0⟩ =
      (⟨false, some "Position out of bounds"⟩, gameT) := by
  have h := C9_validation gameT [] ⟨-1, 0⟩
  have h1 := h.1 (by decide)
  refine ⟨h1, ?_⟩
  have h4 := h.2.2.2 (by rw [h1])
  rw [h4, h1]

/-! ### Claim C10: totality of the Conquer score projection -/

theorem scoreCountsAux (g : Grid) (pid : String) (l : List Position)
    (a b : Nat) :
    l.foldl (scoreStep g pid) (a, b) =
      (a + l.countP fun p =>
        match g.cellAt p with
        | some c => decide (c.type ≠ CellType.rock) &&
            decide (c.owner = some pid)
        | none => false,
       b + l.countP fun p =>
        match g.cellAt p with
        | some c => decide (c.type ≠ CellType.rock)
        | none => false) := by
  induction l generalizing a b with
  | nil => simp
  | cons p l ih =>
    rw [List.foldl_cons, List.countP_cons, List.countP_cons]
    cases hc : g.cellAt p with
    | none =>
      have hstep : scoreStep g pid (a, b) p = (a, b) := by
        simp [scoreStep, hc]
      rw [hstep, ih a b]
      simp [hc]
    | some c =>
      by_cases hr : c.type = CellType.rock
      · have hstep : scoreStep g pid (a, b) p = (a, b) := by
          simp [scoreStep, hc, hr]
        rw [hstep, ih a b]
        simp [hc, hr]
      · by_cases ho : c.owner = some pid
        · have hstep : scoreStep g pid (a, b) p = (a + 1, b + 1) := by
            simp [scoreStep, hc, hr, ho]
          rw [hstep, ih (a + 1) (b + 1)]
          simp [hc, hr, ho, Prod.ext_iff]
          omega
        · have hstep : scoreStep g pid (a, b) p = (a, b + 1) := by
            simp [scoreStep, hc, hr, ho]
          rw [hstep, ih a (b + 1)]
          simp [hc, hr, ho, Prod.ext_iff]
          omega

theorem scoreCounts_eq (g : Grid) (pid : String) :
    scoreCounts g pid = (ownedPlayableCount g pid, playableCount g) := by
  unfold scoreCounts ownedPlayableCount playableCount
  rw [scoreCountsAux]
  simp

/-- C10: the Conquer score calculation is total: the raw score is always
the pair of the owned-playable-cell count and an integer percentage, the
percentage being `round(tilesOwned / playableCells * 100)` exactly when
there are playable cells and `0` otherwise — in particular an all-rock
grid yields `[0, 0]` and never a division by zero. -/
theorem C10_score_total (g : Grid) (player : Player) :
    (calculateScore g player).rawScore =
      [(ownedPlayableCount g player.id : Int),
        if 0 < playableCount g then
          jsRound ((ownedPlayableCount g player.id : ℚ) /
            (playableCount g : ℚ) * 100)
        else 0] ∧
    (playableCount g = 0 → (calculateScore g player).rawScore = [0, 0]) := by
  have hmain : (calculateScore g player).rawScore =
      [(ownedPlayableCount g player.id : Int),
        if 0 < playableCount g then
          jsRound ((ownedPlayableCount g player.id : ℚ) /
            (playableCount g : ℚ) * 100)
        else 0] := by
    unfold calculateScore
    rw [scoreCounts_eq]
  refine ⟨hmain, fun hzero => ?_⟩
  have howned : ownedPlayableCount g player.id = 0 := by
    have hle : ownedPlayableCount g player.id ≤ playableCount g := by
      unfold ownedPlayableCount playableCount
      apply List.countP_mono_left
      intro p _ hp
      cases hc : g.cellAt p with
      | none => rw [hc] at hp; exact absurd hp (by simp)
      | some c => rw [hc] at hp; simp only [Bool.and_eq_true] at hp; simp [hp.1]
    omega
  rw [hmain, hzero, howned]
  simp

/-! ### Claim C8: round-robin turn advancement -/

theorem findIdx?_eq_of_first {α : Type} (pred : α → Bool) (l : List α)
    (i : Nat) (p : α) (hi : l[i]? = some p) (hp : pred p = true)
    (hfirst : ∀ j q, j < i → l[j]? = some q → pred q = false) :
    l.findIdx? pred = some i := by
  have main : ∀ (l : List α) (i s : Nat), l[i]? = some p →
      (∀ j q, j < i → l[j]? = some q → pred q = false) →
      List.findIdx? pred l s = some (s + i) := by
    intro l
    induction l with
    | nil => intro i s hi _; simp at hi
    | cons x xs ih =>
      intro i s hi hfirst
      cases i with
      | zero =>
        simp only [List.getElem?_cons_zero, Option.some.injEq] at hi
        rw [List.findIdx?_cons, if_pos (hi ▸ hp)]
        simp
      | succ i =>
        have hx : pred x = false :=
          hfirst 0 x (Nat.succ_pos i) (by simp)
        rw [List.findIdx?_cons, if_neg (by simp [hx])]
        have := ih i (s + 1) (by simpa using hi)
          (fun j q hj hq => hfirst (j + 1) q (by omega) (by simpa using hq))
        rw [this]
        congr 1
        omega
  simpa using main l i 0 hi hfirst

/-- C8: advancing the turn installs a fresh turn for the player at the
next join-order index `(i + 1) % n`, with an empty move list and the time
budget reset from the options, and the turn number increments exactly when
the next index wraps to 0 — so with 3 players it increments only on every
3rd advancement. -/
theorem C8_advance_turn (game : Game) (t : Turn) (i : Nat) (p : Player)
    (hct : game.currentTurn = some t)
    (hi : game.players[i]? = some p)
    (hpid : p.id = t.playerId)
    (hfirst : ∀ j q, j < i → game.players[j]? = some q →
      q.id ≠ t.playerId) :
    ∃ p', game.players[(i + 1) % game.players.length]? = some p' ∧
      advanceToNextTurn game =
        { game with currentTurn := some (Turn.mk
            (if (i + 1) % game.players.length = 0 then t.turnNumber + 1
              else t.turnNumber)
            p'.id [] game.options.turnTimeLimit
            game.options.turnTimeLimit) } := by
  have hlen : i < game.players.length := by
    rcases List.getElem?_eq_some.1 hi with ⟨h, _⟩
    exact h
  have hmod : (i + 1) % game.players.length < game.players.length :=
    Nat.mod_lt _ (by omega)
  refine ⟨game.players[(i + 1) % game.players.length],
    List.getElem?_eq_getElem hmod, ?_⟩
  have hfind : game.players.findIdx?
      (fun q => decide (q.id = t.playerId)) = some i :=
    findIdx?_eq_of_first _ _ i p hi (by simp [hpid])
      (fun j q hj hq => by simp [hfirst j q hj hq])
  unfold advanceToNextTurn
  rw [hct]
  simp only [hfind, List.getElem?_eq_getElem hmod]

/-- C8 witness: in the concrete 3-player game, advancing from the first
player hands the turn to the second player without incrementing the turn
number, and advancing from the last player wraps to the first player and
increments it. -/
theorem C8_advance_turn_witness :
    advanceToNextTurn gameT =
      { gameT with currentTurn := some ⟨1, "B", [], 60, 60⟩ } ∧
    advanceToNextTurn gameT3 =
      { gameT3 with currentTurn := some ⟨2, "A", [], 60, 60⟩ } := by
  constructor
  · obtain ⟨p', hp', heq⟩ := C8_advance_turn gameT ⟨1, "A", [], 60, 60⟩ 0
      playerA (by decide) (by decide) (by decide)
      (fun j q hj _ => absurd hj (Nat.not_lt_zero j))
    have hpb : gameT.players[(0 + 1) % gameT.players.length]? =
        some playerB := by decide
    rw [hpb] at hp'
    have hp2 : p' = playerB := (Option.some_inj.1 hp').symm
    rw [heq, hp2]
    decide
  · obtain ⟨p', hp', heq⟩ := C8_advance_turn gameT3 ⟨1, "C", [], 60, 60⟩ 2
      playerC (by decide) (by decide) (by decide)
      (by
        intro j q hj hq
        have hpl : gameT3.players = [playerA, playerB, playerC] := rfl
        rw [hpl] at hq
        have hj2 : j = 0 ∨ j = 1 := by omega
        rcases hj2 with rfl | rfl
        · rw [show ([playerA, playerB, playerC] : List Player)[0]? =
            some playerA from rfl] at hq
          injection hq with hq2
          rw [← hq2]
          decide
        · rw [show ([playerA, playerB, playerC] : List Player)[1]? =
            some playerB from rfl] at hq
          injection hq with hq2
          rw [← hq2]
          decide)
    have hpa : gameT3.players[(2 + 1) % gameT3.players.length]? =
        some playerA := by decide
    rw [hpa] at hp'
    have hp2 : p' = playerA := (Option.some_inj.1 hp').symm
    rw [heq, hp2]
    decide


/-! ### Claim C5 groundwork: association-list lemmas for the player-count
map and the cell-count scan invariant -/

theorem mapGet_nil (k : String) : mapGet [] k = none := rfl

theorem mapGet_cons_eq {a : String × Nat} {m : List (String × Nat)}
    {k : String} (h : a.1 = k) : mapGet (a :: m) k = some a.2 := by
  unfold mapGet
  rw [List.find?_cons_of_pos _ (by simp [h])]
  rfl

theorem mapGet_cons_ne {a : String × Nat} {m : List (String × Nat)}
    {k : String} (h : a.1 ≠ k) : mapGet (a :: m) k = mapGet m k := by
  unfold mapGet
  rw [List.find?_cons_of_neg _ (by simp [h])]

theorem mapSet_cons_ne (a : String × Nat) (m : List (String × Nat))
    (k : String) (v : Nat) (h : a.1 ≠ k) :
    mapSet (a :: m) k v = a :: mapSet m k v := by
  unfold mapSet
  rw [List.any_cons]
  by_cases hm : (m.any fun e => decide (e.1 = k)) = true
  · rw [if_pos (by simp [hm]), if_pos hm, List.map_cons, if_neg h]
  · rw [if_neg (by simp [h, hm]), if_neg hm]
    simp

theorem mapSet_cons_eq (a : String × Nat) (m : List (String × Nat))
    (k : String) (v : Nat) (h : a.1 = k) :
    mapSet (a :: m) k v =
      (k, v) :: m.map fun e => if e.1 = k then (k, v) else e := by
  unfold mapSet
  rw [List.any_cons, if_pos (by simp [h]), List.map_cons, if_pos h]

theorem mapGet_mapSet_self (m : List (String × Nat)) (k : String) (v : Nat) :
    mapGet (mapSet m k v) k = some v := by
  induction m with
  | nil => simp [mapSet, mapGet]
  | cons a m ih =>
    by_cases h : a.1 = k
    · rw [mapSet_cons_eq a m k v h, mapGet_cons_eq rfl]
    · rw [mapSet_cons_ne a m k v h, mapGet_cons_ne h]
      exact ih

theorem mapGet_map_overwrite (m : List (String × Nat)) (k k2 : String)
    (v : Nat) (h : k2 ≠ k) :
    mapGet (m.map fun e => if e.1 = k then (k, v) else e) k2 =
      mapGet m k2 := by
  induction m with
  | nil => rfl
  | cons a m ih =>
    rw [List.map_cons]
    by_cases ha : a.1 = k
    · rw [if_pos ha, mapGet_cons_ne (fun hc => h hc.symm),
        mapGet_cons_ne (by rw [ha]; exact fun hc => h hc.symm)]
      exact ih
    · rw [if_neg ha]
      by_cases ha2 : a.1 = k2
      · rw [mapGet_cons_eq ha2, mapGet_cons_eq ha2]
      · rw [mapGet_cons_ne ha2, mapGet_cons_ne ha2]
        exact ih

theorem mapGet_mapSet_ne (m : List (String × Nat)) (k k2 : String) (v : Nat)
    (h : k2 ≠ k) : mapGet (mapSet m k v) k2 = mapGet m k2 := by
  induction m with
  | nil =>
    have h1 : mapSet [] k v = [(k, v)] := rfl
    rw [h1, mapGet_cons_ne (fun hc => h hc.symm)]
  | cons a m ih =>
    by_cases ha : a.1 = k
    · rw [mapSet_cons_eq a m k v ha, mapGet_cons_ne (fun hc => h hc.symm),
        mapGet_map_overwrite m k k2 v h,
        mapGet_cons_ne (by rw [ha]; exact fun hc => h hc.symm)]
    · rw [mapSet_cons_ne a m k v ha]
      by_cases ha2 : a.1 = k2
      · rw [mapGet_cons_eq ha2, mapGet_cons_eq ha2]
      · rw [mapGet_cons_ne ha2, mapGet_cons_ne ha2]
        exact ih

theorem keys_mapSet (m : List (String × Nat)) (k : String) (v : Nat) :
    (mapSet m k v).map Prod.fst =
      if (m.any fun e => decide (e.1 = k)) = true then m.map Prod.fst
      else m.map Prod.fst ++ [k] := by
  unfold mapSet
  by_cases hm : (m.any fun e => decide (e.1 = k)) = true
  · rw [if_pos hm, if_pos hm, List.map_map]
    apply List.map_congr_left
    intro e _
    by_cases he : e.1 = k
    · simp [he]
    · simp [he]
  · rw [if_neg hm, if_neg hm, List.map_append]
    rfl

theorem keysNodup_mapSet (m : List (String × Nat)) (k : String) (v : Nat)
    (hnd : (m.map Prod.fst).Nodup) :
    ((mapSet m k v).map Prod.fst).Nodup := by
  rw [keys_mapSet]
  by_cases hm : (m.any fun e => decide (e.1 = k)) = true
  · rw [if_pos hm]; exact hnd
  · rw [if_neg hm, List.nodup_append]
    refine ⟨hnd, List.nodup_singleton k, ?_⟩
    intro x hx hxk
    simp only [List.mem_singleton] at hxk
    subst hxk
    rw [List.mem_map] at hx
    obtain ⟨e, he, hek⟩ := hx
    rw [List.any_eq_true] at hm
    exact hm ⟨e, he, by simp [hek]⟩

theorem sum_mapSet_succ (m : List (String × Nat)) (k : String)
    (hnd : (m.map Prod.fst).Nodup) :
    ((mapSet m k ((mapGet m k).getD 0 + 1)).map Prod.snd).sum =
      ((m.map Prod.snd).sum) + 1 := by
  induction m with
  | nil => simp [mapSet, mapGet]
  | cons a m ih =>
    rw [List.map_cons, List.nodup_cons] at hnd
    by_cases h : a.1 = k
    · have hknotin : ∀ e ∈ m, e.1 ≠ k := by
        intro e he heq
        exact hnd.1 (h ▸ heq ▸ List.mem_map_of_mem Prod.fst he)
      have hmap : (m.map fun e =>
          if e.1 = k then (k, (mapGet (a :: m) k).getD 0 + 1) else e) = m := by
        rw [List.map_congr_left fun e he => if_neg (hknotin e he)]
        exact List.map_id m
      rw [mapSet_cons_eq _ _ _ _ h, hmap, mapGet_cons_eq h]
      simp only [List.map_cons, List.sum_cons, Option.getD_some]
      omega
    · rw [mapGet_cons_ne h, mapSet_cons_ne _ _ _ _ h]
      simp only [List.map_cons, List.sum_cons]
      rw [ih hnd.2]
      omega

theorem mem_of_mapGet_eq_some {m : List (String × Nat)} {k : String}
    {v : Nat} (h : mapGet m k = some v) : (k, v) ∈ m := by
  induction m with
  | nil => exact absurd h (by simp [mapGet])
  | cons a m ih =>
    by_cases ha : a.1 = k
    · rw [mapGet_cons_eq ha] at h
      have : v = a.2 := (Option.some_inj.1 h).symm
      subst this
      have : (k, a.2) = a := by
        cases a
        simp_all
      rw [this]
      exact List.mem_cons_self a m
    · rw [mapGet_cons_ne ha] at h
      exact List.mem_cons_of_mem a (ih h)

theorem mapGet_eq_some_of_mem {m : List (String × Nat)} {k : String}
    {v : Nat} (hnd : (m.map Prod.fst).Nodup) (h : (k, v) ∈ m) :
    mapGet m k = some v := by
  induction m with
  | nil => exact absurd h (by simp)
  | cons a m ih =>
    rw [List.map_cons, List.nodup_cons] at hnd
    rcases List.mem_cons.1 h with heq | hmem
    · rw [mapGet_cons_eq (by rw [← heq])]
      rw [← heq]
    · have ha : a.1 ≠ k := by
        intro haeq
        exact hnd.1 (haeq ▸ List.mem_map_of_mem Prod.fst hmem)
      rw [mapGet_cons_ne ha]
      exact ih hnd.2 hmem

theorem snd_le_sum {m : List (String × Nat)} {k : String} {v : Nat}
    (h : (k, v) ∈ m) : v ≤ (m.map Prod.snd).sum := by
  induction m with
  | nil => exact absurd h (by simp)
  | cons a m ih =>
    simp only [List.map_cons, List.sum_cons]
    rcases List.mem_cons.1 h with heq | hmem
    · rw [← heq]
      omega
    · have := ih hmem
      omega

theorem two_values_le_sum {m : List (String × Nat)} {k1 k2 : String}
    {v1 v2 : Nat} (h1 : (k1, v1) ∈ m) (h2 : (k2, v2) ∈ m) (hne : k1 ≠ k2) :
    v1 + v2 ≤ (m.map Prod.snd).sum := by
  induction m with
  | nil => exact absurd h1 (by simp)
  | cons a m ih =>
    simp only [List.map_cons, List.sum_cons]
    rcases List.mem_cons.1 h1 with heq1 | hmem1
    · rcases List.mem_cons.1 h2 with heq2 | hmem2
      · rw [← heq1] at heq2
        exact absurd (congrArg Prod.fst heq2) fun hc => hne hc.symm
      · have := snd_le_sum hmem2
        rw [← heq1]
        omega
    · rcases List.mem_cons.1 h2 with heq2 | hmem2
      · have := snd_le_sum hmem1
        rw [← heq2]
        omega
      · have := ih hmem1 hmem2
        omega

theorem countP_add_countP_le_length {α : Type} (l : List α) (p q : α → Bool)
    (h : ∀ x ∈ l, ¬(p x = true ∧ q x = true)) :
    l.countP p + l.countP q ≤ l.length := by
  induction l with
  | nil => simp
  | cons a l ih =>
    rw [List.countP_cons, List.countP_cons, List.length_cons]
    have ha := h a (by simp)
    have hrest := ih fun x hx => h x (by simp [hx])
    by_cases hp : p a = true
    · have hq : ¬ q a = true := fun hq2 => ha ⟨hp, hq2⟩
      simp [hp, hq]
      all_goals omega
    · by_cases hq : q a = true
      · simp [hp, hq]
        all_goals omega
      · simp [hp, hq]
        all_goals omega

theorem countScan_append_one (g : Grid) (l : List Position) (p : Position) :
    countScan g (l ++ [p]) = countStep (countScan g l) (g.cellAt p) := by
  unfold countScan
  rw [List.foldl_append]
  rfl

theorem countScan_invariant (g : Grid) (l : List Position) :
    ((countScan g l).playerCounts.map Prod.fst).Nodup ∧
    (∀ id, mapGet (countScan g l).playerCounts id =
      (if l.countP (pOwn g id) = 0 then none
       else some (l.countP (pOwn g id)))) ∧
    (countScan g l).occupiedCells = l.countP (pOcc g) ∧
    (countScan g l).rockCells = l.countP (pRock g) ∧
    (countScan g l).emptyCells = l.countP (pEmpty g) ∧
    ((countScan g l).playerCounts.map Prod.snd).sum =
      (countScan g l).occupiedCells := by
  induction l using List.reverseRecOn with
  | nil => simp [countScan, mapGet]
  | append_singleton l p ih =>
    obtain ⟨ihnd, ihget, ihocc, ihrock, ihempty, ihsum⟩ := ih
    rw [countScan_append_one]
    cases hc : g.cellAt p with
    | none =>
      have h1 : ∀ id, pOwn g id p = false := by intro id; simp [pOwn, hc]
      have h2 : pOcc g p = false := by simp [pOcc, hc]
      have h3 : pRock g p = false := by simp [pRock, hc]
      have h4 : pEmpty g p = false := by simp [pEmpty, hc]
      have hstep : countStep (countScan g l) none = countScan g l := rfl
      rw [hstep]
      refine ⟨ihnd, fun id => ?_, ?_, ?_, ?_, ihsum⟩
      · rw [List.countP_append, List.countP_cons, List.countP_nil, h1 id]
        simpa using ihget id
      · rw [List.countP_append, List.countP_cons, List.countP_nil, h2]
        simpa using ihocc
      · rw [List.countP_append, List.countP_cons, List.countP_nil, h3]
        simpa using ihrock
      · rw [List.countP_append, List.countP_cons, List.countP_nil, h4]
        simpa using ihempty
    | some cell =>
      cases ho : cell.owner with
      | some oid =>
        have h1 : ∀ id, pOwn g id p = decide (oid = id) := by
          intro id; simp [pOwn, hc, ho]
        have h2 : pOcc g p = true := by simp [pOcc, hc, ho]
        have h3 : pRock g p = false := by simp [pRock, hc, ho]
        have h4 : pEmpty g p = false := by simp [pEmpty, hc, ho]
        have hstep : countStep (countScan g l) (some cell) =
            { countScan g l with
              playerCounts := mapSet (countScan g l).playerCounts oid
                ((mapGet (countScan g l).playerCounts oid).getD 0 + 1),
              occupiedCells := (countScan g l).occupiedCells + 1 } := by
          simp [countStep, ho]
        rw [hstep]
        have hgetD : (mapGet (countScan g l).playerCounts oid).getD 0 =
            l.countP (pOwn g oid) := by
          rw [ihget oid]
          by_cases h0 : l.countP (pOwn g oid) = 0
          · simp [h0]
          · simp [h0]
        refine ⟨?_, fun id => ?_, ?_, ?_, ?_, ?_⟩
        · exact keysNodup_mapSet _ _ _ ihnd
        · by_cases hid : id = oid
          · subst hid
            rw [mapGet_mapSet_self, hgetD]
            rw [List.countP_append, List.countP_cons, List.countP_nil,
              h1 id]
            simp
          · rw [mapGet_mapSet_ne _ oid id _ hid]
            rw [List.countP_append, List.countP_cons, List.countP_nil,
              h1 id]
            have : decide (oid = id) = false := by
              simp
              exact fun hcc => hid hcc.symm
            rw [this]
            simpa using ihget id
        · simp only []
          rw [List.countP_append, List.countP_cons, List.countP_nil, h2,
            ihocc]
          simp
        · simp only []
          rw [List.countP_append, List.countP_cons, List.countP_nil, h3]
          simpa using ihrock
        · simp only []
          rw [List.countP_append, List.countP_cons, List.countP_nil, h4]
          simpa using ihempty
        · simp only []
          rw [sum_mapSet_succ _ _ ihnd, ihsum]
      | none =>
        have h1 : ∀ id, pOwn g id p = false := by
          intro id; simp [pOwn, hc, ho]
        have h2 : pOcc g p = false := by simp [pOcc, hc, ho]
        by_cases hr : cell.type = CellType.rock
        · have h3 : pRock g p = true := by simp [pRock, hc, ho, hr]
          have h4 : pEmpty g p = false := by
            simp [pEmpty, hc, ho, hr]
          have hstep : countStep (countScan g l) (some cell) =
              { countScan g l with
                rockCells := (countScan g l).rockCells + 1 } := by
            simp [countStep, ho, hr]
          rw [hstep]
          refine ⟨ihnd, fun id => ?_, ?_, ?_, ?_, ihsum⟩
          · rw [List.countP_append, List.countP_cons, List.countP_nil,
              h1 id]
            simpa using ihget id
          · rw [List.countP_append, List.countP_cons, List.countP_nil, h2]
            simpa using ihocc
          · simp only []
            rw [List.countP_append, List.countP_cons, List.countP_nil, h3,
              ihrock]
            simp
          · rw [List.countP_append, List.countP_cons, List.countP_nil, h4]
            simpa using ihempty
        · by_cases he : cell.type = CellType.empty
          · have h3 : pRock g p = false := by simp [pRock, hc, ho, hr]
            have h4 : pEmpty g p = true := by simp [pEmpty, hc, ho, he]
            have hstep : countStep (countScan g l) (some cell) =
                { countScan g l with
                  emptyCells := (countScan g l).emptyCells + 1 } := by
              simp [countStep, ho, hr, he]
            rw [hstep]
            refine ⟨ihnd, fun id => ?_, ?_, ?_, ?_, ihsum⟩
            · rw [List.countP_append, List.countP_cons, List.countP_nil,
                h1 id]
              simpa using ihget id
            · rw [List.countP_append, List.countP_cons, List.countP_nil,
                h2]
              simpa using ihocc
            · rw [List.countP_append, List.countP_cons, List.countP_nil,
                h3]
              simpa using ihrock
            · simp only []
              rw [List.countP_append, List.countP_cons, List.countP_nil,
                h4, ihempty]
              simp
          · have h3 : pRock g p = false := by simp [pRock, hc, ho, hr]
            have h4 : pEmpty g p = false := by simp [pEmpty, hc, ho, he]
            have hstep : countStep (countScan g l) (some cell) =
                countScan g l := by
              simp [countStep, ho, hr, he]
            rw [hstep]
            refine ⟨ihnd, fun id => ?_, ?_, ?_, ?_, ihsum⟩
            · rw [List.countP_append, List.countP_cons, List.countP_nil,
                h1 id]
              simpa using ihget id
            · rw [List.countP_append, List.countP_cons, List.countP_nil,
                h2]
              simpa using ihocc
            · rw [List.countP_append, List.countP_cons, List.countP_nil,
                h3]
              simpa using ihrock
            · rw [List.countP_append, List.countP_cons, List.countP_nil,
                h4]
              simpa using ihempty

theorem pOcc_pRock_disjoint (g : Grid) (p : Position) :
    ¬ (pOcc g p = true ∧ pRock g p = true) := by
  unfold pOcc pRock
  cases hc : g.cellAt p with
  | none => simp
  | some c =>
    cases ho : c.owner with
    | none => simp [ho]
    | some o => simp [ho]

theorem occupied_add_rock_le_total (g : Grid) :
    (allPositions g).countP (pOcc g) + rockCount g ≤
      g.width * g.height := by
  have h := countP_add_countP_le_length (allPositions g) (pOcc g) (pRock g)
    fun p _ => pOcc_pRock_disjoint g p
  rw [length_allPositions, Nat.mul_comm] at h
  exact h

theorem find?_players_self (players : List Player) (P : Player)
    (hnd : (players.map Player.id).Nodup) (hP : P ∈ players) :
    players.find? (fun q => decide (q.id = P.id)) = some P := by
  induction players with
  | nil => exact absurd hP (by simp)
  | cons a ps ih =>
    rw [List.map_cons, List.nodup_cons] at hnd
    rcases List.mem_cons.1 hP with heq | hmem
    · subst heq
      exact List.find?_cons_of_pos _ (by simp)
    · by_cases ha : a.id = P.id
      · exact absurd (ha ▸ List.mem_map_of_mem Player.id hmem) hnd.1
      · rw [List.find?_cons_of_neg _ (by simp [ha])]
        exact ih hnd.2 hmem

theorem findMajorityWinner_eq_some (players : List Player)
    (pc : List (String × Nat)) (t : Nat) (P : Player) (cnt : Nat)
    (hnd : (pc.map Prod.fst).Nodup)
    (hentry : (P.id, cnt) ∈ pc) (hcnt : t ≤ cnt)
    (hfindP : players.find? (fun q => decide (q.id = P.id)) = some P)
    (hunique : ∀ e ∈ pc, t ≤ e.2 → e.1 = P.id) :
    findMajorityWinner players pc t = some P := by
  induction pc with
  | nil => exact absurd hentry (by simp)
  | cons e pc ih =>
    rw [List.map_cons, List.nodup_cons] at hnd
    unfold findMajorityWinner
    rw [List.findSome?_cons]
    by_cases hte : t ≤ e.2
    · have he1 : e.1 = P.id := hunique e (List.mem_cons_self e pc) hte
      rw [if_pos hte, he1, hfindP]
    · rw [if_neg hte]
      have hentry2 : (P.id, cnt) ∈ pc := by
        rcases List.mem_cons.1 hentry with heq | hmem
        · have h2 : e.2 = cnt := (congrArg Prod.snd heq).symm
          exact absurd (by rw [h2]; exact hcnt) hte
        · exact hmem
      exact ih hnd.2 hentry2
        fun e2 he2 ht2 => hunique e2 (List.mem_cons_of_mem e he2) ht2

theorem findMajorityWinner_inv (players : List Player)
    (pc : List (String × Nat)) (t : Nat) (w : Player)
    (h : findMajorityWinner players pc t = some w) :
    ∃ e ∈ pc, t ≤ e.2 ∧
      players.find? (fun q => decide (q.id = e.1)) = some w := by
  induction pc with
  | nil => exact absurd h (by simp [findMajorityWinner])
  | cons e pc ih =>
    unfold findMajorityWinner at h
    rw [List.findSome?_cons] at h
    by_cases hte : t ≤ e.2
    · rw [if_pos hte] at h
      cases hf : players.find? fun q => decide (q.id = e.1) with
      | none =>
        rw [hf] at h
        obtain ⟨e2, he2, ht2, hf2⟩ := ih (by simpa using h)
        exact ⟨e2, List.mem_cons_of_mem e he2, ht2, hf2⟩
      | some b =>
        rw [hf] at h
        exact ⟨e, List.mem_cons_self e pc, hte,
          by rw [hf]; exact congrArg some (Option.some_inj.1 h)⟩
    · rw [if_neg hte] at h
      obtain ⟨e2, he2, ht2, hf2⟩ := ih (by simpa using h)
      exact ⟨e2, List.mem_cons_of_mem e he2, ht2, hf2⟩

theorem impossibilityReason_ne_majorityReason (p : Player) :
    impossibilityReason p ≠ majorityReason p := by
  intro h
  have h2 := congrArg String.length h
  have e1 : ("No opponent can catch up, ").length = 26 := rfl
  have e2 : (" has an clear lead.").length = 19 := rfl
  have e3 : (" controls over 50% of the territory.").length = 36 := rfl
  simp only [impossibilityReason, majorityReason, String.length_append,
    e1, e2, e3] at h2
  omega

theorem gridFullReason_single_ne_majorityReason (p : Player) :
    gridFullReason [p] ≠ majorityReason p := by
  intro h
  have hsh : gridFullReason [p] =
      "Grid is full. " ++ p.name ++ " has the most territory." := by
    unfold gridFullReason
    rw [if_neg (by simp)]
    rfl
  rw [hsh] at h
  have h2 := congrArg String.length h
  have e1 : ("Grid is full. ").length = 14 := rfl
  have e2 : (" has the most territory.").length = 24 := rfl
  have e3 : (" controls over 50% of the territory.").length = 36 := rfl
  simp only [majorityReason, String.length_append, e1, e2, e3] at h2
  omega

theorem checkImpossibility_inv (players : List Player) (counts : CellCounts)
    (r : WinCondition) (h : checkImpossibility players counts = some r) :
    ∃ L : Player, r = ⟨true, [L], VictoryType.majority,
      impossibilityReason L⟩ := by
  unfold checkImpossibility at h
  split at h
  · split at h
    · exact absurd h (by simp)
    · split at h
      · exact ⟨_, (Option.some_inj.1 h).symm⟩
      · exact absurd h (by simp)
  · exact absurd h (by simp)

/-! ### Claim C5: the majority threshold -/

/-- C5: the victory evaluator returns the sole-winner territory-majority
result for player P exactly when P's occupied-cell count reaches
`floor(playableCells / 2) + 1` (playable = total cells minus rocks).  The
8x8 instances (33 owned cells win, 32 do not produce this result) are
obtained by instantiation in the witness. -/
theorem C5_majority (game : Game) (P : Player)
    (hP : P ∈ game.players)
    (hnd : (game.players.map Player.id).Nodup) :
    checkConquerVictory game =
      ⟨true, [P], VictoryType.majority, majorityReason P⟩ ↔
    majorityThreshold game.grid ≤ ownedCount game.grid P.id := by
  obtain ⟨hnd', hget, hocc, hrock, hempty, hsum⟩ :=
    countScan_invariant game.grid (allPositions game.grid)
  have hcc : countScan game.grid (allPositions game.grid) =
      countCells game.grid := rfl
  rw [hcc] at hnd' hget hocc hrock hempty hsum
  have hownedDef : ∀ id,
      (allPositions game.grid).countP (pOwn game.grid id) =
      ownedCount game.grid id := fun _ => rfl
  simp only [hownedDef] at hget
  have hthr : (game.grid.width * game.grid.height -
      (countCells game.grid).rockCells) / 2 + 1 =
      majorityThreshold game.grid := by
    rw [hrock]
    rfl
  have hthr1 : 1 ≤ majorityThreshold game.grid := by
    unfold majorityThreshold
    omega
  constructor
  · intro heq
    unfold checkConquerVictory at heq
    simp only [] at heq
    rw [hthr] at heq
    split at heq
    · next w hw =>
      obtain ⟨e, he, hte, hfindw⟩ := findMajorityWinner_inv _ _ _ _ hw
      have hwinj : w = P := by
        have := congrArg WinCondition.winners heq
        simpa using this
      subst hwinj
      have hwid : w.id = e.1 := by
        have := List.find?_some hfindw
        simpa using this
      have he2 : (w.id, e.2) ∈ (countCells game.grid).playerCounts := by
        rw [hwid]
        exact he
      have hgetE : mapGet (countCells game.grid).playerCounts w.id =
          some e.2 := mapGet_eq_some_of_mem hnd' he2
      rw [hget w.id] at hgetE
      by_cases h0 : ownedCount game.grid w.id = 0
      · rw [if_pos h0] at hgetE
        exact absurd hgetE (by simp)
      · rw [if_neg h0] at hgetE
        have := Option.some_inj.1 hgetE
        omega
    · next hw =>
      split at heq
      · next r hr =>
        obtain ⟨L, hL⟩ := checkImpossibility_inv _ _ _ hr
        subst hL
        have hLP : L = P := by
          have := congrArg WinCondition.winners heq
          simpa using this
        subst hLP
        have := congrArg WinCondition.reason heq
        simp only [] at this
        exact absurd this (impossibilityReason_ne_majorityReason L)
      · next hr =>
        unfold checkGridFull at heq
        split at heq
        · simp only [] at heq
          split at heq
          · have := congrArg WinCondition.type heq
            simp at this
          · have hwin := congrArg WinCondition.winners heq
            simp only [] at hwin
            rw [hwin] at heq
            have hreason := congrArg WinCondition.reason heq
            simp only [] at hreason
            exact absurd hreason
              (gridFullReason_single_ne_majorityReason P)
        · have := congrArg WinCondition.hasWinner heq
          simp at this
  · intro hcnt
    have hne0 : ownedCount game.grid P.id ≠ 0 := by omega
    have hmapget : mapGet (countCells game.grid).playerCounts P.id =
        some (ownedCount game.grid P.id) := by
      rw [hget P.id, if_neg hne0]
    have hentry := mem_of_mapGet_eq_some hmapget
    have hfindP := find?_players_self game.players P hnd hP
    have hunique : ∀ e ∈ (countCells game.grid).playerCounts,
        majorityThreshold game.grid ≤ e.2 → e.1 = P.id := by
      intro e he hte
      by_contra hne
      have heeta : (e.1, e.2) = e := rfl
      have hgetE : mapGet (countCells game.grid).playerCounts e.1 =
          some e.2 := mapGet_eq_some_of_mem hnd' (heeta ▸ he)
      rw [hget e.1] at hgetE
      have hcountE : ownedCount game.grid e.1 = e.2 := by
        by_cases h0 : ownedCount game.grid e.1 = 0
        · rw [if_pos h0] at hgetE
          exact absurd hgetE (by simp)
        · rw [if_neg h0] at hgetE
          exact Option.some_inj.1 hgetE
      have htwo : ownedCount game.grid P.id + e.2 ≤
          ((countCells game.grid).playerCounts.map Prod.snd).sum :=
        two_values_le_sum hentry (heeta ▸ he) fun h => hne h.symm
      have hoccb := occupied_add_rock_le_total game.grid
      rw [hsum, hocc] at htwo
      unfold majorityThreshold at hte hcnt
      omega
    have hfind := findMajorityWinner_eq_some game.players
      (countCells game.grid).playerCounts (majorityThreshold game.grid) P
      (ownedCount game.grid P.id) hnd' hentry hcnt hfindP hunique
    unfold checkConquerVictory
    simp only []
    rw [hthr, hfind]

/-- C5 witness: on the 8x8 rockless board (64 playable cells, threshold
33), 33 owned cells produce the sole-winner majority result and 32 do
not. -/
theorem C5_majority_witness :
    checkConquerVictory (gameOf gridA33 [playerA, playerB]) =
      ⟨true, [playerA], VictoryType.majority, majorityReason playerA⟩ ∧
    checkConquerVictory (gameOf gridA32 [playerA, playerB]) ≠
      ⟨true, [playerA], VictoryType.majority, majorityReason playerA⟩ := by
  constructor
  · exact (C5_majority (gameOf gridA33 [playerA, playerB]) playerA
      (by decide) (by decide)).2 (by decide)
  · intro heq
    have h32 := (C5_majority (gameOf gridA32 [playerA, playerB]) playerA
      (by decide) (by decide)).1 heq
    exact absurd h32 (by decide)

/-! ### Claim C6: mathematical-impossibility early termination -/

theorem findMajorityWinner_eq_none (players : List Player)
    (pc : List (String × Nat)) (t : Nat)
    (H : ∀ e ∈ pc, t ≤ e.2 →
      players.find? (fun q => decide (q.id = e.1)) = none) :
    findMajorityWinner players pc t = none := by
  induction pc with
  | nil => rfl
  | cons e pc ih =>
    unfold findMajorityWinner
    rw [List.findSome?_cons]
    by_cases hte : t ≤ e.2
    · rw [if_pos hte, H e (List.mem_cons_self e pc) hte]
      exact ih fun e2 he2 ht2 => H e2 (List.mem_cons_of_mem e he2) ht2
    · rw [if_neg hte]
      exact ih fun e2 he2 ht2 => H e2 (List.mem_cons_of_mem e he2) ht2

/-- C6: when at least one empty cell remains, no player has reached the
majority threshold, and no player other than the leader can reach the
leader's tile count even by taking every remaining empty cell, the
evaluator declares the leader the sole winner immediately with the
cannot-catch-up reason. -/
theorem C6_impossibility (game : Game) (L : Player)
    (hL : L ∈ game.players)
    (hnd : (game.players.map Player.id).Nodup)
    (h2p : 2 ≤ game.players.length)
    (hempty : 0 < emptyCount game.grid)
    (hnomaj : ∀ q ∈ game.players,
      ownedCount game.grid q.id < majorityThreshold game.grid)
    (hlead : ∀ q ∈ game.players, q ≠ L →
      ownedCount game.grid q.id + emptyCount game.grid ≤
        ownedCount game.grid L.id) :
    checkConquerVictory game =
      ⟨true, [L], VictoryType.majority, impossibilityReason L⟩ := by
  obtain ⟨hnd', hget, hocc, hrock, hempty', hsum⟩ :=
    countScan_invariant game.grid (allPositions game.grid)
  have hcc : countScan game.grid (allPositions game.grid) =
      countCells game.grid := rfl
  rw [hcc] at hnd' hget hocc hrock hempty' hsum
  have hownedDef : ∀ id,
      (allPositions game.grid).countP (pOwn game.grid id) =
      ownedCount game.grid id := fun _ => rfl
  simp only [hownedDef] at hget
  have hemptyDef : (countCells game.grid).emptyCells =
      emptyCount game.grid := hempty'
  have hthr : (game.grid.width * game.grid.height -
      (countCells game.grid).rockCells) / 2 + 1 =
      majorityThreshold game.grid := by
    rw [hrock]
    rfl
  -- the majority loop finds nobody
  have hmaj : findMajorityWinner game.players
      (countCells game.grid).playerCounts
      (majorityThreshold game.grid) = none := by
    apply findMajorityWinner_eq_none
    intro e he hte
    cases hf : game.players.find? fun q => decide (q.id = e.1) with
    | none => rfl
    | some w =>
      have hw1 : w.id = e.1 := by
        have := List.find?_some hf
        simpa using this
      have hwmem := List.mem_of_find?_eq_some hf
      have heeta : (e.1, e.2) = e := rfl
      have hgetE : mapGet (countCells game.grid).playerCounts e.1 =
          some e.2 := mapGet_eq_some_of_mem hnd' (heeta ▸ he)
      rw [hget e.1] at hgetE
      have hcountE : ownedCount game.grid e.1 = e.2 := by
        by_cases h0 : ownedCount game.grid e.1 = 0
        · rw [if_pos h0] at hgetE
          exact absurd hgetE (by simp)
        · rw [if_neg h0] at hgetE
          exact Option.some_inj.1 hgetE
      have := hnomaj w hwmem
      rw [hw1, hcountE] at this
      omega
  -- facts about the score list of the impossibility branch
  have hscored : ∀ pr ∈ (game.players.map fun p =>
      (p, (mapGet (countCells game.grid).playerCounts p.id).getD 0)),
      pr.2 = ownedCount game.grid pr.1.id ∧ pr.1 ∈ game.players := by
    intro pr hpr
    rw [List.mem_map] at hpr
    obtain ⟨p, hp, hpr⟩ := hpr
    subst hpr
    refine ⟨?_, hp⟩
    rw [hget p.id]
    by_cases h0 : ownedCount game.grid p.id = 0
    · simp [h0]
    · simp [h0]
  have hvalL : (mapGet (countCells game.grid).playerCounts L.id).getD 0 =
      ownedCount game.grid L.id := by
    rw [hget L.id]
    by_cases h0 : ownedCount game.grid L.id = 0
    · simp [h0]
    · simp [h0]
  haveI htot : IsTotal (Player × Nat) fun a b => b.2 ≤ a.2 :=
    ⟨fun a b => le_total b.2 a.2⟩
  haveI htrans : IsTrans (Player × Nat) fun a b => b.2 ≤ a.2 :=
    ⟨fun _ _ _ h1 h2 => le_trans h2 h1⟩
  have hperm : (playerScores game.players
      (countCells game.grid).playerCounts).Perm
      (game.players.map fun p =>
        (p, (mapGet (countCells game.grid).playerCounts p.id).getD 0)) := by
    unfold playerScores
    exact List.perm_insertionSort _ _
  have hsorted : List.Sorted (fun a b : Player × Nat => b.2 ≤ a.2)
      (playerScores game.players (countCells game.grid).playerCounts) := by
    unfold playerScores
    exact List.sorted_insertionSort _ _
  have hndscored : (game.players.map fun p =>
      (p, (mapGet (countCells game.grid).playerCounts p.id).getD 0)).Nodup := by
    apply List.Nodup.map
    · intro p q hpq
      exact congrArg Prod.fst hpq
    · exact List.Nodup.of_map Player.id hnd
  have hndsorted : (playerScores game.players
      (countCells game.grid).playerCounts).Nodup :=
    hperm.nodup_iff.2 hndscored
  have hmemL : (L, ownedCount game.grid L.id) ∈
      playerScores game.players (countCells game.grid).playerCounts := by
    rw [hperm.mem_iff, List.mem_map]
    exact ⟨L, hL, by rw [hvalL]⟩
  have hlenscores : (playerScores game.players
      (countCells game.grid).playerCounts).length =
      game.players.length := by
    rw [hperm.length_eq, List.length_map]
  have himp : checkImpossibility game.players (countCells game.grid) =
      some ⟨true, [L], VictoryType.majority, impossibilityReason L⟩ := by
    unfold checkImpossibility
    rw [if_pos (by rw [hemptyDef]; exact hempty)]
    cases hs : playerScores game.players
        (countCells game.grid).playerCounts with
    | nil =>
      rw [hs] at hlenscores
      simp at hlenscores
      omega
    | cons leader trailing =>
      rw [hs] at hsorted hndsorted hmemL hlenscores hperm
      have htrailmax : ∀ pr ∈ trailing, pr.2 ≤ leader.2 :=
        List.rel_of_sorted_cons hsorted
      have hheadmem : leader ∈ (game.players.map fun p =>
          (p, (mapGet (countCells game.grid).playerCounts p.id).getD 0)) :=
        hperm.subset (List.mem_cons_self leader trailing)
      obtain ⟨hleadval, hleadmem⟩ := hscored leader hheadmem
      have hleader : leader = (L, ownedCount game.grid L.id) := by
        rcases List.mem_cons.1 hmemL with heq | hmem
        · exact heq.symm
        · by_cases hL1 : leader.1 = L
          · have : leader = (leader.1, leader.2) := rfl
            rw [this, hL1, hleadval, hL1]
          · have hlt := hlead leader.1 hleadmem hL1
            have hmax := htrailmax _ hmem
            omega
      have htrailne : ∀ pr ∈ trailing, pr.1 ≠ L := by
        intro pr hpr hprL
        have hprmem : pr ∈ (game.players.map fun p =>
            (p, (mapGet (countCells game.grid).playerCounts p.id).getD 0)) :=
          hperm.subset (List.mem_cons_of_mem leader hpr)
        obtain ⟨hprval, _⟩ := hscored pr hprmem
        have hpreq : pr = leader := by
          have : pr = (pr.1, pr.2) := rfl
          rw [this, hprL, hprval, hprL, hleader]
        rw [List.nodup_cons] at hndsorted
        exact hndsorted.1 (hpreq ▸ hpr)
      have hany : (trailing.any fun t =>
          decide (t.2 + (countCells game.grid).emptyCells > leader.2))
            = false := by
        rw [List.any_eq_false]
        intro pr hpr
        obtain ⟨hprval, hprmem⟩ := hscored pr
          (hperm.subset (List.mem_cons_of_mem leader hpr))
        have hle := hlead pr.1 hprmem (htrailne pr hpr)
        rw [← hprval] at hle
        simp only [decide_eq_true_eq, hemptyDef, not_lt]
        rw [hleader]
        omega
      have hpos : 0 < leader.2 := by
        cases htr : trailing with
        | nil =>
          rw [htr] at hlenscores
          simp at hlenscores
          omega
        | cons t0 ts =>
          have ht0 : t0 ∈ trailing := by rw [htr]; exact List.mem_cons_self t0 ts
          obtain ⟨ht0val, ht0mem⟩ := hscored t0
            (hperm.subset (List.mem_cons_of_mem leader ht0))
          have hle := hlead t0.1 ht0mem (htrailne t0 ht0)
          rw [← ht0val] at hle
          rw [hleader]
          omega
      simp only []
      rw [if_pos ⟨hany, hpos⟩, hleader]
  unfold checkConquerVictory
  simp only []
  rw [hthr, hmaj, himp]

/-- C6 witness: on the 9x9 rockless board with A at 40 tiles, B at 30,
C at 1 and 10 empty cells, nobody has a majority, no trailing player can
catch A, and A is declared the sole winner early; and in the two-player
40/29/10 example state the evaluator also declares the leader the sole
winner before the grid fills. -/
theorem C6_impossibility_witness :
    checkConquerVictory (gameOf gridC6 [playerA, playerB, playerC]) =
      ⟨true, [playerA], VictoryType.majority,
        impossibilityReason playerA⟩ ∧
    (checkConquerVictory (gameOf gridC6b [playerA, playerB])).winners =
      [playerA] ∧
    (checkConquerVictory (gameOf gridC6b [playerA, playerB])).hasWinner =
      true := by
  refine ⟨?_, by decide, by decide⟩
  exact C6_impossibility (gameOf gridC6 [playerA, playerB, playerC]) playerA
    (by decide) (by decide) (by decide) (by decide) (by decide) (by decide)

/-! ### Claim C4 groundwork: grid lemmas -/

theorem outOfBounds_false_iff (g : Grid) (p : Position) :
    g.outOfBounds p = false ↔
    0 ≤ p.x ∧ p.x < (g.width : Int) ∧ 0 ≤ p.y ∧ p.y < (g.height : Int) := by
  unfold Grid.outOfBounds
  simp only [Bool.or_eq_false_iff, decide_eq_false_iff_not, not_lt, not_le]
  constructor
  · rintro ⟨⟨⟨h1, h2⟩, h3⟩, h4⟩
    exact ⟨h1, h2, h3, h4⟩
  · rintro ⟨h1, h2, h3, h4⟩
    exact ⟨⟨⟨h1, h2⟩, h3⟩, h4⟩

theorem cellAt_bind_form (g : Grid) (p : Position)
    (h : ¬ (p.y < 0 ∨ p.x < 0)) :
    g.cellAt p = g.cells[p.y.toNat]?.bind fun row => row[p.x.toNat]? := by
  unfold Grid.cellAt
  rw [if_neg h]
  cases g.cells[p.y.toNat]? <;> rfl

theorem cellAt_isSome_iff (g : Grid) (hWF : g.WF) (p : Position) :
    (g.cellAt p).isSome = true ↔ g.outOfBounds p = false := by
  obtain ⟨hlen, hrows⟩ := hWF
  rw [outOfBounds_false_iff]
  by_cases hneg : p.y < 0 ∨ p.x < 0
  · unfold Grid.cellAt
    rw [if_pos hneg]
    simp only [Option.isSome_none, Bool.false_eq_true, false_iff]
    omega
  · rw [cellAt_bind_form g p hneg]
    push_neg at hneg
    cases hrow : g.cells[p.y.toNat]? with
    | none =>
      have hge : g.cells.length ≤ p.y.toNat := by
        by_contra hlt
        rw [List.getElem?_eq_getElem (by omega)] at hrow
        exact absurd hrow (by simp)
      rw [hlen] at hge
      simp only [Option.none_bind, Option.isSome_none, Bool.false_eq_true,
        false_iff]
      omega
    | some row =>
      have hylt : p.y.toNat < g.cells.length := (List.getElem?_eq_some.1 hrow).1
      have hrl : row.length = g.width := by
        apply hrows
        obtain ⟨hh, hg⟩ := List.getElem?_eq_some.1 hrow
        rw [← hg]
        exact List.getElem_mem hh
      rw [hlen] at hylt
      simp only [Option.some_bind]
      cases hcell : row[p.x.toNat]? with
      | none =>
        have hge : row.length ≤ p.x.toNat := by
          by_contra hlt
          rw [List.getElem?_eq_getElem (by omega)] at hcell
          exact absurd hcell (by simp)
        rw [hrl] at hge
        simp only [Option.isSome_none, Bool.false_eq_true, false_iff]
        omega
      | some c =>
        have hxlt : p.x.toNat < row.length := (List.getElem?_eq_some.1 hcell).1
        rw [hrl] at hxlt
        simp only [Option.isSome_some, true_iff]
        omega

theorem cellAt_some_of_inB (g : Grid) (hWF : g.WF) (p : Position)
    (h : g.outOfBounds p = false) : ∃ c, g.cellAt p = some c := by
  have := (cellAt_isSome_iff g hWF p).2 h
  cases hc : g.cellAt p with
  | none => rw [hc] at this; exact absurd this (by simp)
  | some c => exact ⟨c, rfl⟩

theorem inB_of_cellAt_some (g : Grid) (hWF : g.WF) (p : Position) (c : Cell)
    (h : g.cellAt p = some c) : g.outOfBounds p = false := by
  have : (g.cellAt p).isSome = true := by rw [h]; rfl
  exact (cellAt_isSome_iff g hWF p).1 this

theorem mem_allPositions (g : Grid) (p : Position) :
    p ∈ allPositions g ↔ g.outOfBounds p = false := by
  unfold allPositions
  rw [List.mem_flatMap, outOfBounds_false_iff]
  simp only [List.mem_map, List.mem_range]
  constructor
  · rintro ⟨y, hy, x, hx, rfl⟩
    simp only [Int.ofNat_eq_natCast]
    omega
  · rintro ⟨h1, h2, h3, h4⟩
    refine ⟨p.y.toNat, by omega, p.x.toNat, by omega, ?_⟩
    apply Position.ext_xy
    · simp only [Int.ofNat_eq_natCast]
      omega
    · simp only [Int.ofNat_eq_natCast]
      omega

theorem nodup_allPositions (g : Grid) : (allPositions g).Nodup := by
  have hform : allPositions g = ((List.range g.height).map fun y =>
      (List.range g.width).map fun x =>
        (⟨Int.ofNat x, Int.ofNat y⟩ : Position)).flatten := rfl
  rw [hform, List.nodup_flatten]
  constructor
  · intro l hl
    rw [List.mem_map] at hl
    obtain ⟨y, _, rfl⟩ := hl
    refine List.Nodup.map ?_ (List.nodup_range g.width)
    intro a b hab
    have := congrArg Position.x hab
    simp only [Int.ofNat_eq_natCast] at this
    omega
  · refine List.Pairwise.map _ ?_ (List.pairwise_lt_range g.height)
    intro y1 y2 hlt
    intro p hp1 hp2
    rw [List.mem_map] at hp1 hp2
    obtain ⟨x1, _, rfl⟩ := hp1
    obtain ⟨x2, _, heq⟩ := hp2
    have := congrArg Position.y heq
    simp only [Int.ofNat_eq_natCast] at this
    omega

theorem length_mono_of_nodup_subset {α : Type} [DecidableEq α]
    {l1 l2 : List α} (hnd : l1.Nodup) (hsub : l1 ⊆ l2) :
    l1.length ≤ l2.length :=
  (List.subperm_of_subset hnd hsub).length_le

theorem WF_setCell (g : Grid) (hWF : g.WF) (p : Position) (c : Cell) :
    (g.setCell p c).WF := by
  obtain ⟨hlen, hrows⟩ := hWF
  unfold Grid.setCell
  by_cases hneg : p.y < 0 ∨ p.x < 0
  · rw [if_pos hneg]
    exact ⟨hlen, hrows⟩
  · rw [if_neg hneg]
    cases hrow : g.cells[p.y.toNat]? with
    | none => exact ⟨hlen, hrows⟩
    | some row =>
      refine ⟨by simp [List.length_set, hlen], ?_⟩
      intro row2 hrow2
      rcases List.mem_or_eq_of_mem_set hrow2 with hmem | heq
      · exact hrows row2 hmem
      · subst heq
        rw [List.length_set]
        apply hrows
        obtain ⟨hh, hg⟩ := List.getElem?_eq_some.1 hrow
        rw [← hg]
        exact List.getElem_mem hh

theorem outOfBounds_setCell (g : Grid) (p : Position) (c : Cell)
    (q : Position) : (g.setCell p c).outOfBounds q = g.outOfBounds q := by
  unfold Grid.setCell
  by_cases hneg : p.y < 0 ∨ p.x < 0
  · rw [if_pos hneg]
  · rw [if_neg hneg]
    cases g.cells[p.y.toNat]? <;> rfl

theorem cellAt_setCell (g : Grid) (hWF : g.WF) (p : Position)
    (hp : g.outOfBounds p = false) (c : Cell) (q : Position) :
    (g.setCell p c).cellAt q = if q = p then some c else g.cellAt q := by
  obtain ⟨hlen, hrows⟩ := hWF
  have hp' := (outOfBounds_false_iff g p).1 hp
  have hpneg : ¬ (p.y < 0 ∨ p.x < 0) := by omega
  have hylt : p.y.toNat < g.cells.length := by omega
  have hrow : g.cells[p.y.toNat]? = some g.cells[p.y.toNat] :=
    List.getElem?_eq_getElem hylt
  have hrowlen : (g.cells[p.y.toNat]).length = g.width :=
    hrows _ (List.getElem_mem hylt)
  have hset : g.setCell p c = Grid.mk g.width g.height
      (g.cells.set p.y.toNat ((g.cells[p.y.toNat]).set p.x.toNat c)) := by
    unfold Grid.setCell
    rw [if_neg hpneg, hrow]
  rw [hset]
  by_cases hqneg : q.y < 0 ∨ q.x < 0
  · have hqp : q ≠ p := by
      intro h
      subst h
      omega
    rw [if_neg hqp]
    unfold Grid.cellAt
    rw [if_pos hqneg, if_pos hqneg]
  · rw [cellAt_bind_form _ q hqneg, cellAt_bind_form g q hqneg]
    push_neg at hqneg
    simp only []
    rw [List.getElem?_set]
    by_cases hy : p.y.toNat = q.y.toNat
    · rw [if_pos hy, if_pos (by omega)]
      simp only [Option.some_bind]
      rw [List.getElem?_set]
      by_cases hx : p.x.toNat = q.x.toNat
      · have hqp : q = p := Position.ext_xy (by omega) (by omega)
        rw [if_pos hx, if_pos (by omega), if_pos hqp]
      · have hqp : q ≠ p := by
          intro h
          subst h
          exact hx rfl
        rw [if_neg hx, if_neg hqp, ← hy, hrow]
        simp only [Option.some_bind]
    · rw [if_neg hy]
      have hqp : q ≠ p := by
        intro h
        subst h
        exact hy rfl
      rw [if_neg hqp]

theorem applyCaptures_cellAt (C : List Position) (g : Grid) (pid : String)
    (hWF : g.WF) (hC : ∀ p ∈ C, g.outOfBounds p = false) (q : Position) :
    (applyCaptures g pid C).cellAt q =
      if q ∈ C then some ⟨CellType.occupied, some pid⟩ else g.cellAt q := by
  induction C generalizing g with
  | nil => simp [applyCaptures]
  | cons p C ih =>
    have hfold : applyCaptures g pid (p :: C) =
        applyCaptures (g.setCell p ⟨CellType.occupied, some pid⟩) pid C := rfl
    rw [hfold]
    have hp := hC p (by simp)
    have hWF' := WF_setCell g hWF p (⟨CellType.occupied, some pid⟩ : Cell)
    have hC' : ∀ r ∈ C,
        (g.setCell p ⟨CellType.occupied, some pid⟩).outOfBounds r = false := by
      intro r hr
      rw [outOfBounds_setCell]
      exact hC r (by simp [hr])
    rw [ih _ hWF' hC']
    by_cases hq : q ∈ C
    · rw [if_pos hq, if_pos (by simp [hq])]
    · rw [if_neg hq, cellAt_setCell g hWF p hp _ q]
      by_cases hqp : q = p
      · rw [if_pos hqp, if_pos (by simp [hqp])]
      · rw [if_neg hqp, if_neg (by simp [hq, hqp])]

theorem Position.eq_iff (p q : Position) :
    p = q ↔ p.x = q.x ∧ p.y = q.y := by
  constructor
  · rintro rfl
    exact ⟨rfl, rfl⟩
  · rintro ⟨h1, h2⟩
    exact Position.ext_xy h1 h2

theorem adj_mem_iff (p q : Position) : q ∈ getAdjacentPositions p ↔
    (q.x = p.x - 1 ∧ q.y = p.y) ∨ (q.x = p.x + 1 ∧ q.y = p.y) ∨
    (q.x = p.x ∧ q.y = p.y - 1) ∨ (q.x = p.x ∧ q.y = p.y + 1) := by
  unfold getAdjacentPositions
  simp [Position.eq_iff]

theorem adj_symm (p q : Position) :
    q ∈ getAdjacentPositions p ↔ p ∈ getAdjacentPositions q := by
  rw [adj_mem_iff, adj_mem_iff]
  omega

theorem reaches_trans {g : Grid} {pid : String} {a b c : Position}
    (h1 : Reaches g pid a b) (h2 : Reaches g pid b c) :
    Reaches g pid a c := by
  induction h2 with
  | refl => exact h1
  | step hr hadj hoob helig ih => exact Reaches.step ih hadj hoob helig

theorem reaches_props {g : Grid} {pid : String} {s p : Position}
    (h : Reaches g pid s p) :
    p = s ∨ (g.outOfBounds p = false ∧ eligible g pid p) := by
  induction h with
  | refl => exact Or.inl rfl
  | step hr hadj hoob helig ih => exact Or.inr ⟨hoob, helig⟩

theorem reaches_decomp {g : Grid} {pid : String} {s c : Position}
    (h : Reaches g pid s c) :
    c = s ∨ ∃ q, q ∈ getAdjacentPositions s ∧ g.outOfBounds q = false ∧
      eligible g pid q ∧ Reaches g pid q c := by
  induction h with
  | refl => exact Or.inl rfl
  | step hr hadj hoob helig ih =>
    rcases ih with rfl | ⟨q, hq1, hq2, hq3, hq4⟩
    · exact Or.inr ⟨_, hadj, hoob, helig, Reaches.refl⟩
    · exact Or.inr ⟨q, hq1, hq2, hq3, Reaches.step hq4 hadj hoob helig⟩

theorem reaches_symm {g : Grid} {pid : String} {q c : Position}
    (hoobq : g.outOfBounds q = false) (heq : eligible g pid q)
    (h : Reaches g pid q c) : Reaches g pid c q := by
  induction h with
  | refl => exact Reaches.refl
  | step hr hadj hoob helig ih =>
    rcases reaches_props hr with rfl | ⟨hpo, hpe⟩
    · exact Reaches.step Reaches.refl ((adj_symm _ _).1 hadj) hoobq heq
    · exact reaches_trans
        (Reaches.step Reaches.refl ((adj_symm _ _).1 hadj) hpo hpe) ih

theorem floodStepAux (g : Grid) (pid : String) (l : List Position) :
    ∀ (pushed visited0 res1 res2 : List Position),
    (pushed.reverse ++ visited0).Nodup →
    (∀ q ∈ pushed, g.outOfBounds q = false ∧ eligible g pid q) →
    l.foldl (pushStep g pid) (pushed, pushed.reverse ++ visited0) =
      (res1, res2) →
    res2 = res1.reverse ++ visited0 ∧
    (res1.reverse ++ visited0).Nodup ∧
    (∀ q ∈ res1, g.outOfBounds q = false ∧ eligible g pid q) ∧
    (∃ pre, res1 = pushed ++ pre ∧ ∀ q ∈ pre, q ∈ l) ∧
    (∀ n ∈ l, g.outOfBounds n = false → eligible g pid n → n ∈ res2) := by
  induction l with
  | nil =>
    intro pushed v0 res1 res2 hnd hprops hfold
    rw [List.foldl_nil, Prod.mk.injEq] at hfold
    obtain ⟨h1, h2⟩ := hfold
    subst h1
    subst h2
    exact ⟨rfl, hnd, hprops, ⟨[], by simp, by simp⟩, by simp⟩
  | cons n l ih =>
    intro pushed v0 res1 res2 hnd hprops hfold
    rw [List.foldl_cons] at hfold
    by_cases hv : n ∈ pushed.reverse ++ v0
    · have hstep : pushStep g pid (pushed, pushed.reverse ++ v0) n =
          (pushed, pushed.reverse ++ v0) := by
        unfold pushStep
        rw [if_pos hv]
      rw [hstep] at hfold
      obtain ⟨h1, h2, h3, ⟨pre, hpre1, hpre2⟩, h5⟩ :=
        ih pushed v0 res1 res2 hnd hprops hfold
      refine ⟨h1, h2, h3, ⟨pre, hpre1, fun q hq => by
        simp [hpre2 q hq]⟩, ?_⟩
      intro m hm hmo hme
      rcases List.mem_cons.1 hm with rfl | hml
      · rw [h1, hpre1]
        rcases List.mem_append.1 hv with hvp | hvv
        · simp only [List.mem_append, List.mem_reverse] at hvp ⊢
          exact Or.inl (Or.inl hvp)
        · simp only [List.mem_append]
          exact Or.inr hvv
      · exact h5 m hml hmo hme
    · by_cases hoob : g.outOfBounds n = true
      · have hstep : pushStep g pid (pushed, pushed.reverse ++ v0) n =
            (pushed, pushed.reverse ++ v0) := by
          unfold pushStep
          rw [if_neg hv, if_pos hoob]
        rw [hstep] at hfold
        obtain ⟨h1, h2, h3, ⟨pre, hpre1, hpre2⟩, h5⟩ :=
          ih pushed v0 res1 res2 hnd hprops hfold
        refine ⟨h1, h2, h3, ⟨pre, hpre1, fun q hq => by
          simp [hpre2 q hq]⟩, ?_⟩
        intro m hm hmo hme
        rcases List.mem_cons.1 hm with rfl | hml
        · rw [hmo] at hoob
          exact absurd hoob (by simp)
        · exact h5 m hml hmo hme
      · have hoob' : g.outOfBounds n = false := by
          cases h : g.outOfBounds n
          · rfl
          · exact absurd h hoob
        cases hcell : g.cellAt n with
        | none =>
          have hstep : pushStep g pid (pushed, pushed.reverse ++ v0) n =
              (pushed, pushed.reverse ++ v0) := by
            unfold pushStep
            rw [if_neg hv, if_neg (by simp [hoob']), hcell]
          rw [hstep] at hfold
          obtain ⟨h1, h2, h3, ⟨pre, hpre1, hpre2⟩, h5⟩ :=
            ih pushed v0 res1 res2 hnd hprops hfold
          refine ⟨h1, h2, h3, ⟨pre, hpre1, fun q hq => by
            simp [hpre2 q hq]⟩, ?_⟩
          intro m hm hmo hme
          rcases List.mem_cons.1 hm with rfl | hml
          · obtain ⟨c, hc, _⟩ := hme
            rw [hcell] at hc
            exact absurd hc (by simp)
          · exact h5 m hml hmo hme
        | some c =>
          by_cases hreg : isRegionCell pid c = true
          · have hstep : pushStep g pid (pushed, pushed.reverse ++ v0) n =
                (pushed ++ [n], n :: (pushed.reverse ++ v0)) := by
              unfold pushStep
              rw [if_neg hv, if_neg (by simp [hoob']), hcell]
              simp only [hreg, if_true]
            have hform : (n :: (pushed.reverse ++ v0)) =
                (pushed ++ [n]).reverse ++ v0 := by
              simp
            rw [hstep, hform] at hfold
            have hnd' : ((pushed ++ [n]).reverse ++ v0).Nodup := by
              rw [← hform, List.nodup_cons]
              exact ⟨hv, hnd⟩
            have hprops' : ∀ q ∈ pushed ++ [n],
                g.outOfBounds q = false ∧ eligible g pid q := by
              intro q hq
              rcases List.mem_append.1 hq with hq1 | hq2
              · exact hprops q hq1
              · rw [List.mem_singleton] at hq2
                subst hq2
                exact ⟨hoob', ⟨c, hcell, hreg⟩⟩
            obtain ⟨h1, h2, h3, ⟨pre, hpre1, hpre2⟩, h5⟩ :=
              ih (pushed ++ [n]) v0 res1 res2 hnd' hprops' hfold
            refine ⟨h1, h2, h3, ⟨n :: pre, by
              rw [hpre1, List.append_assoc]
              rfl, fun q hq => by
              rcases List.mem_cons.1 hq with rfl | hq2
              · exact List.mem_cons_self q l
              · simp [hpre2 q hq2]⟩, ?_⟩
            intro m hm hmo hme
            rcases List.mem_cons.1 hm with rfl | hml
            · rw [h1, hpre1]
              simp only [List.mem_append, List.mem_reverse,
                List.mem_singleton]
              exact Or.inl (Or.inl (Or.inr trivial))
            · exact h5 m hml hmo hme
          · have hstep : pushStep g pid (pushed, pushed.reverse ++ v0) n =
                (pushed, pushed.reverse ++ v0) := by
              unfold pushStep
              rw [if_neg hv, if_neg (by simp [hoob']), hcell]
              simp [hreg]
            rw [hstep] at hfold
            obtain ⟨h1, h2, h3, ⟨pre, hpre1, hpre2⟩, h5⟩ :=
              ih pushed v0 res1 res2 hnd hprops hfold
            refine ⟨h1, h2, h3, ⟨pre, hpre1, fun q hq => by
              simp [hpre2 q hq]⟩, ?_⟩
            intro m hm hmo hme
            rcases List.mem_cons.1 hm with rfl | hml
            · obtain ⟨c2, hc2, hreg2⟩ := hme
              rw [hcell] at hc2
              have : c2 = c := Option.some_inj.1 hc2.symm
              subst this
              exact absurd hreg2 (by simp [hreg])
            · exact h5 m hml hmo hme

theorem floodStep_spec (g : Grid) (pid : String) (current : Position)
    (visited : List Position) (hnd : visited.Nodup) :
    ∀ res1 res2, floodStep g pid current visited = (res1, res2) →
    res2 = res1.reverse ++ visited ∧
    (res1.reverse ++ visited).Nodup ∧
    (∀ q ∈ res1, g.outOfBounds q = false ∧ eligible g pid q ∧
      q ∈ getAdjacentPositions current) ∧
    (∀ n ∈ getAdjacentPositions current, g.outOfBounds n = false →
      eligible g pid n → n ∈ res2) := by
  intro res1 res2 hstep
  unfold floodStep at hstep
  obtain ⟨h1, h2, h3, ⟨pre, hpre1, hpre2⟩, h5⟩ :=
    floodStepAux g pid (getAdjacentPositions current) [] visited res1 res2
      (by simpa using hnd) (by simp) hstep
  refine ⟨h1, h2, ?_, h5⟩
  intro q hq
  obtain ⟨ho, he⟩ := h3 q hq
  refine ⟨ho, he, ?_⟩
  rw [hpre1] at hq
  exact hpre2 q (by simpa using hq)

theorem visited_bound (g : Grid) (pid : String) (s : Position)
    (visited : List Position) (hnd : visited.Nodup)
    (hprops : ∀ p ∈ visited, p = s ∨
      (g.outOfBounds p = false ∧ eligible g pid p)) :
    visited.length ≤ g.width * g.height + 1 := by
  have hsub : visited ⊆ s :: allPositions g := by
    intro p hp
    rcases hprops p hp with rfl | ⟨hoob, _⟩
    · exact List.mem_cons_self p _
    · exact List.mem_cons_of_mem _ ((mem_allPositions g p).2 hoob)
  have hle := (List.subperm_of_subset hnd hsub).length_le
  rw [List.length_cons, length_allPositions] at hle
  have : g.height * g.width = g.width * g.height := Nat.mul_comm _ _
  omega

theorem loopInv_final (g : Grid) (pid : String) (s : Position)
    (visited region : List Position)
    (hInv : LoopInv g pid s [] visited region) :
    FloodOut g pid s visited region := by
  obtain ⟨hnd, hiff, hndrs, hprops, hreach, hclos⟩ := hInv
  have hmem : ∀ p, p ∈ visited ↔ p ∈ region := by
    intro p
    rw [hiff p]
    simp
  refine ⟨by simpa using hndrs, fun p hp => (hmem p).1 hp,
    fun p hp => hprops p ((hmem p).2 hp),
    fun p hp => hreach p ((hmem p).2 hp),
    fun p hp n hn hno hne => (hmem n).1 (hclos p hp n hn hno hne)⟩

theorem floodLoop_spec (g : Grid) (pid : String) (s : Position) :
    ∀ (fuel : Nat) (stack visited region : List Position),
    LoopInv g pid s stack visited region →
    stack.length + 4 * (g.width * g.height + 1 - visited.length) ≤ fuel →
    FloodOut g pid s visited
      (floodLoop g pid fuel stack visited region).1 := by
  intro fuel
  induction fuel with
  | zero =>
    intro stack visited region hInv hmeasure
    have hstack : stack = [] := by
      cases stack with
      | nil => rfl
      | cons a t => simp at hmeasure
    subst hstack
    exact loopInv_final g pid s visited region hInv
  | succ fuel ih =>
    intro stack visited region hInv hmeasure
    cases stack with
    | nil => exact loopInv_final g pid s visited region hInv
    | cons current stack2 =>
      obtain ⟨hnd, hiff, hndrs, hprops, hreach, hclos⟩ := hInv
      rcases hfs : floodStep g pid current visited with ⟨pushed, visited2⟩
      obtain ⟨hv2, hndv2, hpushprops, hcomplete⟩ :=
        floodStep_spec g pid current visited hnd pushed visited2 hfs
      have hloop : floodLoop g pid (fuel + 1) (current :: stack2)
          visited region = floodLoop g pid fuel
          (pushed.reverse ++ stack2) visited2 (region ++ [current]) := by
        show floodLoop g pid fuel
          ((floodStep g pid current visited).1.reverse ++ stack2)
          (floodStep g pid current visited).2 (region ++ [current]) = _
        rw [hfs]
      rw [hloop]
      have hcur : current ∈ visited := (hiff current).2 (Or.inr (by simp))
      have hdisj : ∀ q ∈ pushed, q ∉ visited := by
        intro q hq hqv
        rw [List.nodup_append] at hndv2
        exact hndv2.2.2 (List.mem_reverse.2 hq) hqv
      have hvissub : ∀ p ∈ visited, p ∈ visited2 := by
        intro p hp
        rw [hv2, List.mem_append]
        exact Or.inr hp
      have hv2mem : ∀ p, p ∈ visited2 ↔ p ∈ pushed ∨ p ∈ visited := by
        intro p
        rw [hv2, List.mem_append, List.mem_reverse]
      have hInv2 : LoopInv g pid s (pushed.reverse ++ stack2) visited2
          (region ++ [current]) := by
        refine ⟨by rw [hv2]; exact hndv2, ?_, ?_, ?_, ?_, ?_⟩
        · intro p
          rw [hv2mem p, hiff p]
          simp only [List.mem_append, List.mem_cons, List.mem_reverse,
            List.mem_singleton]
          tauto
        · have hperm : ((region ++ [current]) ++
              (pushed.reverse ++ stack2)).Perm
              (pushed.reverse ++ ((region ++ [current]) ++ stack2)) := by
            have p1 : ((region ++ [current]) ++
                (pushed.reverse ++ stack2)).Perm
                ((pushed.reverse ++ stack2) ++ (region ++ [current])) :=
              List.perm_append_comm
            have p2 : ((pushed.reverse ++ stack2) ++ (region ++ [current]))
                = pushed.reverse ++ (stack2 ++ (region ++ [current])) :=
              List.append_assoc _ _ _
            have p3 : (pushed.reverse ++
                (stack2 ++ (region ++ [current]))).Perm
                (pushed.reverse ++ ((region ++ [current]) ++ stack2)) :=
              List.Perm.append_left _ List.perm_append_comm
            exact (p2 ▸ p1).trans p3
          refine hperm.nodup_iff.2 ?_
          rw [List.nodup_append]
          refine ⟨by
            rw [List.nodup_append] at hndv2
            exact hndv2.1, ?_, ?_⟩
          · have heq : (region ++ [current]) ++ stack2 =
                region ++ current :: stack2 := by
              rw [List.append_assoc]
              rfl
            rw [heq]
            exact hndrs
          · intro q hq1 hq2
            have hqp : q ∈ pushed := List.mem_reverse.1 hq1
            apply hdisj q hqp
            have : q ∈ region ∨ q = current ∨ q ∈ stack2 := by
              simp only [List.mem_append, List.mem_singleton,
                List.mem_cons] at hq2
              tauto
            rcases this with h | h | h
            · exact (hiff q).2 (Or.inl h)
            · rw [h]; exact hcur
            · exact (hiff q).2 (Or.inr (by simp [h]))
        · intro p hp
          rcases (hv2mem p).1 hp with hpp | hpv
          · obtain ⟨ho, he, _⟩ := hpushprops p hpp
            exact Or.inr ⟨ho, he⟩
          · exact hprops p hpv
        · intro p hp
          rcases (hv2mem p).1 hp with hpp | hpv
          · obtain ⟨ho, he, hadj⟩ := hpushprops p hpp
            exact Reaches.step (hreach current hcur) hadj ho he
          · exact hreach p hpv
        · intro p hp n hn hno hne
          rcases List.mem_append.1 hp with hpr | hpc
          · exact hvissub n (hclos p hpr n hn hno hne)
          · rw [List.mem_singleton] at hpc
            subst hpc
            exact hcomplete n hn hno hne
      have hlen2 : visited2.length = pushed.length + visited.length := by
        rw [hv2, List.length_append, List.length_reverse]
      have hbound : visited2.length ≤ g.width * g.height + 1 := by
        apply visited_bound g pid s visited2 (by rw [hv2]; exact hndv2)
        intro p hp
        rcases (hv2mem p).1 hp with hpp | hpv
        · obtain ⟨ho, he, _⟩ := hpushprops p hpp
          exact Or.inr ⟨ho, he⟩
        · exact hprops p hpv
      have hmeasure2 : (pushed.reverse ++ stack2).length +
          4 * (g.width * g.height + 1 - visited2.length) ≤ fuel := by
        rw [List.length_append, List.length_reverse]
        rw [List.length_cons] at hmeasure
        omega
      have hres := ih (pushed.reverse ++ stack2) visited2
        (region ++ [current]) hInv2 hmeasure2
      obtain ⟨hr1, hr2, hr3, hr4, hr5⟩ := hres
      exact ⟨hr1, fun p hp => hr2 p (hvissub p hp), hr3, hr4, hr5⟩

theorem floodFill_out (g : Grid) (pid : String) (s : Position) :
    FloodOut g pid s [s] (floodFill g pid s) := by
  unfold floodFill
  apply floodLoop_spec
  · refine ⟨List.nodup_singleton s, ?_, ?_, ?_, ?_, ?_⟩
    · intro p
      simp
    · simp
    · intro p hp
      rw [List.mem_singleton] at hp
      exact Or.inl hp
    · intro p hp
      rw [List.mem_singleton] at hp
      subst hp
      exact Reaches.refl
    · intro p hp
      simp at hp
  · simp only [List.length_singleton]
    omega

theorem mem_floodFill_iff (g : Grid) (pid : String) (s : Position) :
    ∀ p, p ∈ floodFill g pid s ↔ Reaches g pid s p := by
  obtain ⟨hnd, hself, hprops, hreach, hclos⟩ := floodFill_out g pid s
  intro p
  constructor
  · exact hreach p
  · intro h
    induction h with
    | refl => exact hself s (by simp)
    | step hr hadj hoob helig ih => exact hclos _ ih _ hadj hoob helig

theorem floodFill_nodup (g : Grid) (pid : String) (s : Position) :
    (floodFill g pid s).Nodup :=
  (floodFill_out g pid s).1

theorem detect_some_inv (g : Grid) (m : Nat) (player : Player)
    (startPos : Position) (r : Region)
    (h : detectEnclosedRegion g m player startPos = some r) :
    ∃ c0, g.cellAt startPos = some c0 ∧
      ¬ (c0.owner = some player.id ∨ c0.type = CellType.rock) ∧
      r = ⟨floodFill g player.id startPos, player.id⟩ ∧
      ∃ k, scanBoundary g player.id (floodFill g player.id startPos) =
        some k ∧ k ≤ m := by
  unfold detectEnclosedRegion at h
  split at h
  · exact absurd h (by simp)
  · next c0 hc0 =>
    split at h
    · exact absurd h (by simp)
    · next hfilter =>
      simp only [] at h
      split at h
      · exact absurd h (by simp)
      · split at h
        · exact absurd h (by simp)
        · next k hk =>
          split at h
          · exact absurd h (by simp)
          · next hbudget =>
            refine ⟨c0, hc0, hfilter, (Option.some_inj.1 h).symm, k, hk,
              by omega⟩

theorem scanOuter_none (g : Grid) (pid : String) (R : List Position)
    (l : List Position) :
    l.foldl (fun acc p => scanCellBoundary g pid R p acc) none = none := by
  induction l with
  | nil => rfl
  | cons p l ih =>
    rw [List.foldl_cons]
    have hcell : scanCellBoundary g pid R p none = none := scanFold_none _ _ _ _
    rw [hcell, ih]

theorem scanFold_some_cond (g : Grid) (pid : String) (R : List Position)
    (l : List Position) :
    ∀ (acc : Option Nat) (kf : Nat),
    l.foldl (scanStep g pid R) acc = some kf →
    ∀ n ∈ l, g.outOfBounds n = false → ∀ c, g.cellAt n = some c →
    ¬ (c.type = CellType.rock ∨ c.owner = some pid) → n ∈ R := by
  induction l with
  | nil =>
    intro acc kf h n hn
    simp at hn
  | cons n0 l ih =>
    intro acc kf h n hn hno c hc hnf
    rw [List.foldl_cons] at h
    have hstep : ∃ k0, scanStep g pid R acc n0 = some k0 := by
      cases hs : scanStep g pid R acc n0 with
      | none => rw [hs, scanFold_none] at h; exact absurd h (by simp)
      | some k0 => exact ⟨k0, rfl⟩
    obtain ⟨k0, hk0⟩ := hstep
    rcases List.mem_cons.1 hn with rfl | hnl
    · cases hacc : acc with
      | none =>
        rw [hacc] at hk0
        exact absurd hk0 (by simp [scanStep])
      | some cnt =>
        rw [hacc] at hk0
        by_cases hmem : (R.any fun p =>
            decide (p.x = n.x) && decide (p.y = n.y)) = true
        · exact (memCheck_iff R n).1 hmem
        · have hnone : scanStep g pid R (some cnt) n = none := by
            simp [scanStep, hno, hc, hnf, hmem]
          rw [hnone] at hk0
          exact absurd hk0 (by simp)
    · exact ih (scanStep g pid R acc n0) kf h n hnl hno c hc hnf

theorem scanBoundary_closure (g : Grid) (pid : String) (R : List Position)
    (k : Nat) (h : scanBoundary g pid R = some k) :
    ∀ p ∈ R, ∀ n ∈ getAdjacentPositions p, g.outOfBounds n = false →
    ∀ c, g.cellAt n = some c →
    ¬ (c.type = CellType.rock ∨ c.owner = some pid) → n ∈ R := by
  unfold scanBoundary at h
  have main : ∀ (l : List Position) (acc : Option Nat) (kf : Nat),
      l.foldl (fun acc p => scanCellBoundary g pid R p acc) acc = some kf →
      ∀ p ∈ l, ∀ n ∈ getAdjacentPositions p, g.outOfBounds n = false →
      ∀ c, g.cellAt n = some c →
      ¬ (c.type = CellType.rock ∨ c.owner = some pid) → n ∈ R := by
    intro l
    induction l with
    | nil =>
      intro acc kf h p hp
      simp at hp
    | cons p0 l ih =>
      intro acc kf h p hp n hn hno c hc hnf
      rw [List.foldl_cons] at h
      rcases List.mem_cons.1 hp with rfl | hpl
      · have hstep : ∃ k0, scanCellBoundary g pid R p acc = some k0 := by
          cases hs : scanCellBoundary g pid R p acc with
          | none => rw [hs, scanOuter_none] at h; exact absurd h (by simp)
          | some k0 => exact ⟨k0, rfl⟩
        obtain ⟨k0, hk0⟩ := hstep
        unfold scanCellBoundary at hk0
        exact scanFold_some_cond g pid R _ acc k0 hk0 n hn hno c hc hnf
      · exact ih _ kf h p hpl n hn hno c hc hnf
  exact main R (some 0) k h

theorem regions_disjoint (g : Grid) (hWF : g.WF) (m : Nat) (player : Player)
    (s1 s2 : Position) (r1 r2 : Region)
    (h1 : detectEnclosedRegion g m player s1 = some r1)
    (h2 : detectEnclosedRegion g m player s2 = some r2)
    (hs2 : s2 ∉ r1.cells) :
    ∀ p ∈ r2.cells, p ∉ r1.cells := by
  obtain ⟨c1, hc1, hf1, hr1, k1, hscan1, _⟩ :=
    detect_some_inv g m player s1 r1 h1
  obtain ⟨c2, hc2, hf2, hr2, k2, hscan2, _⟩ :=
    detect_some_inv g m player s2 r2 h2
  subst hr1
  subst hr2
  have hs2b : g.outOfBounds s2 = false := inB_of_cellAt_some g hWF s2 c2 hc2
  intro p hp2 hp1
  have hre1 : Reaches g player.id s1 p :=
    (mem_floodFill_iff g player.id s1 p).1 hp1
  have hre2 : Reaches g player.id s2 p :=
    (mem_floodFill_iff g player.id s2 p).1 hp2
  rcases reaches_decomp hre2 with rfl | ⟨q2, hq2adj, hq2ob, hq2el, hq2p⟩
  · exact hs2 hp1
  · have hsym : Reaches g player.id p q2 := reaches_symm hq2ob hq2el hq2p
    have hs1q2 : Reaches g player.id s1 q2 := reaches_trans hre1 hsym
    have hq2mem : q2 ∈ floodFill g player.id s1 :=
      (mem_floodFill_iff g player.id s1 q2).2 hs1q2
    have hs2adj : s2 ∈ getAdjacentPositions q2 := (adj_symm s2 q2).1 hq2adj
    have hs2in : s2 ∈ floodFill g player.id s1 :=
      scanBoundary_closure g player.id _ k1 hscan1 q2 hq2mem s2 hs2adj
        hs2b c2 hc2 (fun hcon => hf2 hcon.symm)
    exact hs2 hs2in

theorem cell_mem_of_cellAt (g : Grid) (p : Position) (c : Cell)
    (h : g.cellAt p = some c) : ∃ row ∈ g.cells, c ∈ row := by
  by_cases hneg : p.y < 0 ∨ p.x < 0
  · unfold Grid.cellAt at h
    rw [if_pos hneg] at h
    exact absurd h (by simp)
  · rw [cellAt_bind_form g p hneg] at h
    cases hrow : g.cells[p.y.toNat]? with
    | none =>
      rw [hrow] at h
      exact absurd h (by simp)
    | some row =>
      rw [hrow] at h
      simp only [Option.some_bind] at h
      obtain ⟨hh, hg⟩ := List.getElem?_eq_some.1 hrow
      obtain ⟨hh2, hg2⟩ := List.getElem?_eq_some.1 h
      exact ⟨row, by rw [← hg]; exact List.getElem_mem hh,
        by rw [← hg2]; exact List.getElem_mem hh2⟩

theorem region_cells_props (g : Grid) (hWF : g.WF) (hOwn : g.OwnerWF)
    (m : Nat) (player : Player) (s : Position) (r : Region)
    (h : detectEnclosedRegion g m player s = some r) :
    ∀ p ∈ r.cells, g.outOfBounds p = false ∧
      ownerAt g p ≠ some player.id := by
  obtain ⟨c0, hc0, hf, hr, _⟩ := detect_some_inv g m player s r h
  subst hr
  intro p hp
  rcases (floodFill_out g player.id s).2.2.1 p hp with rfl | ⟨hoob, hel⟩
  · refine ⟨inB_of_cellAt_some g hWF p c0 hc0, ?_⟩
    unfold ownerAt
    rw [hc0]
    simp only [Option.some_bind]
    intro hcon
    exact hf (Or.inl hcon)
  · obtain ⟨c, hc, hreg⟩ := hel
    refine ⟨hoob, ?_⟩
    unfold ownerAt
    rw [hc]
    simp only [Option.some_bind]
    unfold isRegionCell at hreg
    rw [Bool.or_eq_true] at hreg
    rcases hreg with hemp | hown
    · have htype : c.type = CellType.empty := of_decide_eq_true hemp
      intro hcon
      have hsome : c.owner.isSome = true := by rw [hcon]; rfl
      obtain ⟨row, hrow, hcrow⟩ := cell_mem_of_cellAt g p c hc
      have hocc := hOwn row hrow c hcrow hsome
      rw [htype] at hocc
      exact absurd hocc (by simp)
    · cases ho : c.owner with
      | none => simp
      | some o =>
        rw [ho] at hown
        have hne : o ≠ player.id := of_decide_eq_true hown
        intro hcon
        exact hne (Option.some_inj.1 hcon)

theorem captureFold_inv (g : Grid) (hWF : g.WF) (m : Nat) (player : Player)
    (l : List Position) :
    ∀ acc : List Region × List Position,
    acc.2 = (acc.1.map Region.cells).flatten →
    acc.2.Nodup →
    List.Pairwise (fun r1 r2 => ∀ p ∈ r1.cells, p ∉ r2.cells) acc.1 →
    (∀ r ∈ acc.1, ∃ s, detectEnclosedRegion g m player s = some r) →
    ((l.foldl (captureStep g m player) acc).2 =
      (((l.foldl (captureStep g m player) acc).1).map Region.cells).flatten)
    ∧ ((l.foldl (captureStep g m player) acc).2).Nodup
    ∧ List.Pairwise (fun r1 r2 => ∀ p ∈ r1.cells, p ∉ r2.cells)
        ((l.foldl (captureStep g m player) acc).1)
    ∧ (∀ r ∈ (l.foldl (captureStep g m player) acc).1,
        ∃ s, detectEnclosedRegion g m player s = some r) := by
  induction l with
  | nil =>
    intro acc h1 h2 h3 h4
    exact ⟨h1, h2, h3, h4⟩
  | cons s l ih =>
    intro acc h1 h2 h3 h4
    rw [List.foldl_cons]
    by_cases hmem : s ∈ acc.2
    · have hstep : captureStep g m player acc s = acc := by
        unfold captureStep
        rw [if_pos hmem]
      rw [hstep]
      exact ih acc h1 h2 h3 h4
    · cases hdet : detectEnclosedRegion g m player s with
      | none =>
        have hstep : captureStep g m player acc s = acc := by
          unfold captureStep
          rw [if_neg hmem, hdet]
        rw [hstep]
        exact ih acc h1 h2 h3 h4
      | some region =>
        by_cases hlen : region.cells.length > 0
        · have hstep : captureStep g m player acc s =
              (acc.1 ++ [region], acc.2 ++ region.cells) := by
            unfold captureStep
            rw [if_neg hmem, hdet]
            simp only []
            rw [if_pos hlen]
          rw [hstep]
          have hcross : ∀ r1 ∈ acc.1, ∀ p ∈ region.cells, p ∉ r1.cells := by
            intro r1 hr1 p hp
            obtain ⟨s1, hs1⟩ := h4 r1 hr1
            have hsnot : s ∉ r1.cells := by
              intro hcon
              apply hmem
              rw [h1, List.mem_flatten]
              exact ⟨r1.cells, List.mem_map_of_mem Region.cells hr1, hcon⟩
            exact regions_disjoint g hWF m player s1 s r1 region hs1 hdet
              hsnot p hp
          have hrnd : region.cells.Nodup := by
            obtain ⟨c0, hc0, hf, hr, _⟩ := detect_some_inv g m player s
              region hdet
            rw [hr]
            exact floodFill_nodup g player.id s
          refine ih _ ?_ ?_ ?_ ?_
          · simp [h1]
          · rw [List.nodup_append]
            refine ⟨h2, hrnd, ?_⟩
            intro p hpacc hpreg
            rw [h1, List.mem_flatten] at hpacc
            obtain ⟨cells1, hc1, hpc1⟩ := hpacc
            rw [List.mem_map] at hc1
            obtain ⟨r1, hr1, hr1c⟩ := hc1
            exact hcross r1 hr1 p hpreg (hr1c ▸ hpc1)
          · rw [List.pairwise_append]
            refine ⟨h3, List.pairwise_singleton _ _, ?_⟩
            intro r1 hr1 r2 hr2
            rw [List.mem_singleton] at hr2
            subst hr2
            intro p hp hpr
            exact hcross r1 hr1 p hpr hp
          · intro r hr
            rcases List.mem_append.1 hr with hr1 | hr2
            · exact h4 r hr1
            · rw [List.mem_singleton] at hr2
              subst hr2
              exact ⟨s, hdet⟩
        · have hstep : captureStep g m player acc s = acc := by
            unfold captureStep
            rw [if_neg hmem, hdet]
            simp only []
            rw [if_neg hlen]
          rw [hstep]
          exact ih acc h1 h2 h3 h4

theorem countP_mem_eq_length (l C : List Position) (hl : l.Nodup)
    (hC : C.Nodup) (hsub : ∀ p ∈ C, p ∈ l) :
    (l.countP fun p => decide (p ∈ C)) = C.length := by
  rw [List.countP_eq_length_filter]
  have hperm : List.Perm (l.filter fun p => decide (p ∈ C)) C := by
    refine (List.perm_ext_iff_of_nodup (hl.filter _) hC).2 ?_
    intro p
    rw [List.mem_filter]
    simp only [decide_eq_true_eq]
    constructor
    · exact fun h => h.2
    · exact fun h => ⟨hsub p h, h⟩
  exact hperm.length_eq

/-- C4: a single call to detectAndCaptureRegions returns regions whose
cell lists are pairwise disjoint, a capturedCells list that is exactly
their union without duplicates, and the number of cells whose ownership
changes to the mover in the returned grid equals the total number of
cells in the returned region cell lists. -/
theorem C4_capture_conservation (g : Grid) (m : Nat) (player : Player)
    (lastMove : Position) (hWF : g.WF) (hOwn : g.OwnerWF) :
    List.Pairwise (fun r1 r2 => ∀ p ∈ r1.cells, p ∉ r2.cells)
      (detectAndCaptureRegions g m player lastMove).1 ∧
    (detectAndCaptureRegions g m player lastMove).2.1 =
      (((detectAndCaptureRegions g m player lastMove).1).map
        Region.cells).flatten ∧
    ((detectAndCaptureRegions g m player lastMove).2.1).Nodup ∧
    ((allPositions g).countP fun p =>
      decide (ownerAt (detectAndCaptureRegions g m player lastMove).2.2 p
          = some player.id ∧ ownerAt g p ≠ some player.id)) =
      ((detectAndCaptureRegions g m player lastMove).2.1).length := by
  obtain ⟨Hflat, Hnd, Hpw, Hprov⟩ := captureFold_inv g hWF m player
    (getAdjacentPositions lastMove) ([], []) rfl List.nodup_nil
    List.Pairwise.nil (by intro r hr; exact absurd hr (by simp))
  have h1 : (detectAndCaptureRegions g m player lastMove).1 =
      ((getAdjacentPositions lastMove).foldl
        (captureStep g m player) ([], [])).1 := rfl
  have h2 : (detectAndCaptureRegions g m player lastMove).2.1 =
      ((getAdjacentPositions lastMove).foldl
        (captureStep g m player) ([], [])).2 := rfl
  have h3 : (detectAndCaptureRegions g m player lastMove).2.2 =
      applyCaptures g player.id
        ((getAdjacentPositions lastMove).foldl
          (captureStep g m player) ([], [])).2 := rfl
  rw [h1, h2, h3]
  have hCin : ∀ p ∈ ((getAdjacentPositions lastMove).foldl
      (captureStep g m player) ([], [])).2,
      g.outOfBounds p = false ∧ ownerAt g p ≠ some player.id := by
    intro p hp
    rw [Hflat, List.mem_flatten] at hp
    obtain ⟨cs, hcs, hpcs⟩ := hp
    rw [List.mem_map] at hcs
    obtain ⟨r, hr, hcells⟩ := hcs
    obtain ⟨s, hs⟩ := Hprov r hr
    exact region_cells_props g hWF hOwn m player s r hs p (hcells ▸ hpcs)
  refine ⟨Hpw, Hflat, Hnd, ?_⟩
  have hga := applyCaptures_cellAt
    ((getAdjacentPositions lastMove).foldl
      (captureStep g m player) ([], [])).2 g player.id hWF
    (fun p hp => (hCin p hp).1)
  have hcong : ∀ p ∈ allPositions g,
      (decide (ownerAt (applyCaptures g player.id
          ((getAdjacentPositions lastMove).foldl
            (captureStep g m player) ([], [])).2) p = some player.id ∧
        ownerAt g p ≠ some player.id)) =
      (decide (p ∈ ((getAdjacentPositions lastMove).foldl
          (captureStep g m player) ([], [])).2)) := by
    intro p _
    by_cases hp : p ∈ ((getAdjacentPositions lastMove).foldl
        (captureStep g m player) ([], [])).2
    · rw [decide_eq_true hp]
      apply decide_eq_true
      refine ⟨?_, (hCin p hp).2⟩
      unfold ownerAt
      rw [hga p, if_pos hp]
      rfl
    · rw [decide_eq_false hp]
      apply decide_eq_false
      rintro ⟨ha, hb⟩
      have hsame : ownerAt (applyCaptures g player.id
          ((getAdjacentPositions lastMove).foldl
            (captureStep g m player) ([], [])).2) p = ownerAt g p := by
        unfold ownerAt
        rw [hga p, if_neg hp]
      rw [hsame] at ha
      exact hb ha
  rw [List.countP_eq_length_filter, List.filter_congr hcong,
    ← List.countP_eq_length_filter]
  exact countP_mem_eq_length (allPositions g)
    ((getAdjacentPositions lastMove).foldl
      (captureStep g m player) ([], [])).2
    (nodup_allPositions g) Hnd
    (fun p hp => (mem_allPositions g p).2 (hCin p hp).1)

theorem C4_capture_conservation_witness :
    gridC3.WF ∧ gridC3.OwnerWF ∧
    (List.Pairwise (fun r1 r2 => ∀ p ∈ r1.cells, p ∉ r2.cells)
      (detectAndCaptureRegions gridC3 0 playerA ⟨1, 0⟩).1 ∧
    (detectAndCaptureRegions gridC3 0 playerA ⟨1, 0⟩).2.1 =
      (((detectAndCaptureRegions gridC3 0 playerA ⟨1, 0⟩).1).map
        Region.cells).flatten ∧
    ((detectAndCaptureRegions gridC3 0 playerA ⟨1, 0⟩).2.1).Nodup ∧
    ((allPositions gridC3).countP fun p =>
      decide (ownerAt (detectAndCaptureRegions gridC3 0 playerA ⟨1, 0⟩).2.2 p
          = some playerA.id ∧ ownerAt gridC3 p ≠ some playerA.id)) =
      ((detectAndCaptureRegions gridC3 0 playerA ⟨1, 0⟩).2.1).length) :=
  ⟨by decide, by decide,
    C4_capture_conservation gridC3 0 playerA ⟨1, 0⟩ (by decide) (by decide)⟩
